import Mathlib

/-!
A shallow embedding of the squircle geometry engine of `expo-squircle`
(`packages/expo-squircle/src/ExpoSquircle.tsx`), together with proofs about it.

JavaScript numbers are idealised as real numbers (`ℝ`); `Math.sin`, `Math.cos`,
`Math.tan`, `Math.SQRT2` and `Math.PI` become their exact counterparts on `ℝ`.
`Number.prototype.toFixed(4)` becomes exact rounding to four decimal places
(round half towards positive infinity, which is what `toFixed` does on exact
decimal values).  Division by zero follows Lean's `x / 0 = 0` convention; every
place where the source divides is either guarded by the surrounding control
flow or analysed explicitly.  The two module-level caches are semantically
transparent for the path computation (a hit returns the value previously
computed for the same key), so the path builder is embedded as a pure function;
the FIFO path-cache *mechanics* (`storeCachedPath`) are embedded separately and
explicitly as an insertion-ordered association list, the way a JavaScript `Map`
behaves.
-/

namespace ExpoSquircle

/-! ## Corner identifiers and the adjacency table (source: `CornerId`,
`EdgeOrientation`, `ADJACENT_RELATIONS`) -/

inductive CornerId where
  | topLeft
  | topRight
  | bottomLeft
  | bottomRight
deriving DecidableEq, Fintype

inductive EdgeOrientation where
  | top
  | bottom
  | left
  | right
deriving DecidableEq, Fintype

def ADJACENT_RELATIONS : CornerId → List (CornerId × EdgeOrientation)
  | .topLeft => [(.topRight, .top), (.bottomLeft, .left)]
  | .topRight => [(.topLeft, .top), (.bottomRight, .right)]
  | .bottomLeft => [(.bottomRight, .bottom), (.topLeft, .left)]
  | .bottomRight => [(.bottomLeft, .bottom), (.topRight, .right)]

/-- Source: `side === "top" || side === "bottom" ? width : height`. -/
def sideLen (width height : ℝ) : EdgeOrientation → ℝ
  | .top => width
  | .bottom => width
  | .left => height
  | .right => height

/-- The two `Record<CornerId, number>` maps mutated by `normalizeCorners`. -/
structure CornerMaps where
  radiusMap : CornerId → ℝ
  budgetMap : CornerId → ℝ

/-- Point update of a corner-indexed map (a JS record assignment). -/
def setCorner (f : CornerId → ℝ) (c : CornerId) (v : ℝ) : CornerId → ℝ :=
  fun x => if x = c then v else f x

/-- `Math.min(...list)` for a non-empty list (the empty case never occurs in
the source; its value is irrelevant). -/
noncomputable def minList : List ℝ → ℝ
  | [] => 0
  | x :: xs => xs.foldl min x

/-! ## The corner budget solver (source: `normalizeCorners`) -/

/-- One entry of the `Math.min(...)` inside `normalizeCorners`: the budget
candidate contributed by the adjacent corner `adj.1` across the side `adj.2`.
`radius` is the radius of the corner being processed, captured by
`Object.entries` before any mutation; `m` is the current state of the two
mutable maps. -/
noncomputable def budgetCandidate (width height radius : ℝ) (m : CornerMaps)
    (adj : CornerId × EdgeOrientation) : ℝ :=
  let adjacentRadius := m.radiusMap adj.1
  if radius = 0 ∧ adjacentRadius = 0 then 0
  else
    let adjacentBudget := m.budgetMap adj.1
    let sl := sideLen width height adj.2
    if 0 ≤ adjacentBudget then sl - adjacentBudget
    else radius / (radius + adjacentRadius) * sl

/-- The body of the `forEach` in `normalizeCorners`: resolve one corner's
budget and clamp its radius.  `snap` is the snapshot of the radii taken by
`Object.entries` before the loop starts. -/
noncomputable def resolveCorner (width height : ℝ) (snap : CornerId → ℝ)
    (m : CornerMaps) (corner : CornerId) : CornerMaps :=
  let radius := snap corner
  let budget := minList ((ADJACENT_RELATIONS corner).map
    (budgetCandidate width height radius m))
  { radiusMap := setCorner m.radiusMap corner (min radius budget)
    budgetMap := setCorner m.budgetMap corner budget }

/-- Insertion step of a stable descending sort: the new corner goes after
every already-placed corner whose radius is greater than or equal to its own.
This is the behaviour of `Array.prototype.sort` (stable since ES2019) with the
comparator `([, r1], [, r2]) => r2 - r1`. -/
noncomputable def insertDesc (snap : CornerId → ℝ) (c : CornerId) :
    List CornerId → List CornerId
  | [] => [c]
  | x :: xs => if snap x < snap c then c :: x :: xs else x :: insertDesc snap c xs

/-- Object-literal insertion order of the radius map in the source. -/
def cornerEnumeration : List CornerId :=
  [.topLeft, .topRight, .bottomLeft, .bottomRight]

/-- The corners in descending order of requested radius, ties kept in the
enumeration order `topLeft, topRight, bottomLeft, bottomRight`. -/
noncomputable def sortDescending (snap : CornerId → ℝ) : List CornerId :=
  cornerEnumeration.foldl (fun acc c => insertDesc snap c acc) []

/-- `normalizeCorners`, fold form: `budgetMap` starts at `-1` everywhere, the
radius map starts at the requested radii, the corners are processed in
descending order of requested radius. -/
noncomputable def normalizeCornersAux (width height : ℝ) (snap : CornerId → ℝ) :
    CornerMaps :=
  (sortDescending snap).foldl (resolveCorner width height snap)
    { radiusMap := snap, budgetMap := fun _ => -1 }

/-- The requested radii as a corner-indexed map (argument order follows the
source's `CornerSpreadInput`). -/
def cornerRadiusMap (topLeftCornerRadius topRightCornerRadius
    bottomRightCornerRadius bottomLeftCornerRadius : ℝ) : CornerId → ℝ
  | .topLeft => topLeftCornerRadius
  | .topRight => topRightCornerRadius
  | .bottomLeft => bottomLeftCornerRadius
  | .bottomRight => bottomRightCornerRadius

/-- Source: `normalizeCorners`.  Returns the final radius and budget maps
(the source repackages them into a `CornerProfiles` record verbatim). -/
noncomputable def normalizeCorners (topLeftCornerRadius topRightCornerRadius
    bottomRightCornerRadius bottomLeftCornerRadius width height : ℝ) :
    CornerMaps :=
  normalizeCornersAux width height
    (cornerRadiusMap topLeftCornerRadius topRightCornerRadius
      bottomRightCornerRadius bottomLeftCornerRadius)

/-! ## Elementary lemmas about `minList`, `insertDesc`, `sortDescending` -/

lemma foldl_min_le_init (a : ℝ) (l : List ℝ) : l.foldl min a ≤ a := by
  induction l generalizing a with
  | nil => exact le_rfl
  | cons x xs ih => exact le_trans (ih (min a x)) (min_le_left a x)

lemma foldl_min_le_of_mem {x : ℝ} (a : ℝ) {l : List ℝ} (hx : x ∈ l) :
    l.foldl min a ≤ x := by
  induction l generalizing a with
  | nil => cases hx
  | cons y ys ih =>
    rcases List.mem_cons.mp hx with h | h
    · subst h
      exact le_trans (foldl_min_le_init (min a x) ys) (min_le_right a x)
    · exact ih (min a y) h

lemma le_foldl_min {a b : ℝ} {l : List ℝ} (hb : b ≤ a) (h : ∀ x ∈ l, b ≤ x) :
    b ≤ l.foldl min a := by
  induction l generalizing a with
  | nil => exact hb
  | cons x xs ih =>
    exact ih (le_min hb (h x (List.mem_cons_self x xs)))
      (fun y hy => h y (List.mem_cons_of_mem x hy))

lemma lt_foldl_min {a b : ℝ} {l : List ℝ} (hb : b < a) (h : ∀ x ∈ l, b < x) :
    b < l.foldl min a := by
  induction l generalizing a with
  | nil => exact hb
  | cons x xs ih =>
    exact ih (lt_min hb (h x (List.mem_cons_self x xs)))
      (fun y hy => h y (List.mem_cons_of_mem x hy))

lemma minList_le_of_mem {x : ℝ} {l : List ℝ} (hx : x ∈ l) : minList l ≤ x := by
  cases l with
  | nil => cases hx
  | cons a t =>
    rcases List.mem_cons.mp hx with h | h
    · subst h; exact foldl_min_le_init x t
    · exact foldl_min_le_of_mem a h

lemma le_minList {b : ℝ} {l : List ℝ} (hl : l ≠ []) (h : ∀ x ∈ l, b ≤ x) :
    b ≤ minList l := by
  cases l with
  | nil => exact absurd rfl hl
  | cons a t =>
    exact le_foldl_min (h a (List.mem_cons_self a t))
      (fun y hy => h y (List.mem_cons_of_mem a hy))

lemma lt_minList {b : ℝ} {l : List ℝ} (hl : l ≠ []) (h : ∀ x ∈ l, b < x) :
    b < minList l := by
  cases l with
  | nil => exact absurd rfl hl
  | cons a t =>
    exact lt_foldl_min (h a (List.mem_cons_self a t))
      (fun y hy => h y (List.mem_cons_of_mem a hy))

lemma mem_insertDesc {snap : CornerId → ℝ} {x c : CornerId} :
    ∀ {l : List CornerId}, x ∈ insertDesc snap c l ↔ x = c ∨ x ∈ l := by
  intro l
  induction l with
  | nil => simp [insertDesc]
  | cons y ys ih =>
    by_cases h : snap y < snap c
    · simp [insertDesc, h]
    · simp only [insertDesc, if_neg h, List.mem_cons, ih]
      tauto

lemma insertDesc_nodup {snap : CornerId → ℝ} {c : CornerId} :
    ∀ {l : List CornerId}, l.Nodup → c ∉ l → (insertDesc snap c l).Nodup := by
  intro l
  induction l with
  | nil => intro _ _; simp [insertDesc]
  | cons y ys ih =>
    intro hnd hc
    rcases List.nodup_cons.mp hnd with ⟨hy, hys⟩
    by_cases h : snap y < snap c
    · rw [insertDesc, if_pos h]
      exact List.nodup_cons.mpr ⟨hc, hnd⟩
    · rw [insertDesc, if_neg h]
      refine List.nodup_cons.mpr ⟨?_, ih hys (fun hm => hc (List.mem_cons_of_mem y hm))⟩
      intro hmem
      rcases mem_insertDesc.mp hmem with h1 | h1
      · exact hc (h1 ▸ List.mem_cons_self y ys)
      · exact hy h1

lemma mem_foldl_insertDesc {snap : CornerId → ℝ} {x : CornerId} :
    ∀ (l : List CornerId) (acc : List CornerId),
      x ∈ l.foldl (fun a c => insertDesc snap c a) acc ↔ x ∈ l ∨ x ∈ acc := by
  intro l
  induction l with
  | nil => intro acc; simp
  | cons y ys ih =>
    intro acc
    rw [List.foldl_cons, ih]
    rw [mem_insertDesc]
    simp only [List.mem_cons]
    tauto

lemma nodup_foldl_insertDesc {snap : CornerId → ℝ} :
    ∀ (l : List CornerId) (acc : List CornerId), acc.Nodup → l.Nodup →
      (∀ x ∈ l, x ∉ acc) →
      (l.foldl (fun a c => insertDesc snap c a) acc).Nodup := by
  intro l
  induction l with
  | nil => intro acc h _ _; simpa using h
  | cons y ys ih =>
    intro acc hacc hnd hdisj
    rcases List.nodup_cons.mp hnd with ⟨hy, hys⟩
    rw [List.foldl_cons]
    refine ih _ (insertDesc_nodup hacc (hdisj y (List.mem_cons_self y ys))) hys ?_
    intro x hx hmem
    rcases mem_insertDesc.mp hmem with h1 | h1
    · exact hy (h1 ▸ hx)
    · exact hdisj x (List.mem_cons_of_mem y hx) h1

lemma mem_sortDescending (snap : CornerId → ℝ) (x : CornerId) :
    x ∈ sortDescending snap := by
  rw [sortDescending, mem_foldl_insertDesc]
  left
  cases x <;> simp [cornerEnumeration]

lemma nodup_sortDescending (snap : CornerId → ℝ) :
    (sortDescending snap).Nodup := by
  refine nodup_foldl_insertDesc _ _ List.nodup_nil ?_ (by simp)
  simp [cornerEnumeration]

lemma ADJACENT_RELATIONS_ne_nil (c : CornerId) : ADJACENT_RELATIONS c ≠ [] := by
  cases c <;> simp [ADJACENT_RELATIONS]

/-- The adjacency table is symmetric, and the shared side agrees. -/
lemma adjacent_symm :
    ∀ (c a : CornerId) (e : EdgeOrientation),
      (a, e) ∈ ADJACENT_RELATIONS c → (c, e) ∈ ADJACENT_RELATIONS a := by
  decide

/-- No corner is adjacent to itself. -/
lemma adjacent_ne :
    ∀ (c : CornerId), ∀ adj ∈ ADJACENT_RELATIONS c, adj.1 ≠ c := by
  decide

lemma resolveCorner_budgetMap (width height : ℝ) (snap : CornerId → ℝ)
    (m : CornerMaps) (k x : CornerId) :
    (resolveCorner width height snap m k).budgetMap x =
      if x = k then
        minList ((ADJACENT_RELATIONS k).map
          (budgetCandidate width height (snap k) m))
      else m.budgetMap x := rfl

lemma resolveCorner_radiusMap (width height : ℝ) (snap : CornerId → ℝ)
    (m : CornerMaps) (k x : CornerId) :
    (resolveCorner width height snap m k).radiusMap x =
      if x = k then
        min (snap k)
          (minList ((ADJACENT_RELATIONS k).map
            (budgetCandidate width height (snap k) m)))
      else m.radiusMap x := rfl

/-! ## The solver invariant

Maintained by every iteration of `normalizeCorners`' `forEach`.  A corner is
"resolved" once its entry in `budgetMap` is no longer the sentinel `-1`
(equivalently: once it is nonnegative). -/

structure SolverInv (width height : ℝ) (snap : CornerId → ℝ)
    (m : CornerMaps) : Prop where
  unresolved_radius : ∀ c, m.budgetMap c < 0 → m.radiusMap c = snap c
  resolved_radius : ∀ c, 0 ≤ m.budgetMap c →
    m.radiusMap c = min (snap c) (m.budgetMap c)
  budget_le_side : ∀ c, ∀ adj ∈ ADJACENT_RELATIONS c, 0 ≤ m.budgetMap c →
    m.budgetMap c ≤ sideLen width height adj.2
  pair_sum : ∀ c, ∀ adj ∈ ADJACENT_RELATIONS c, 0 ≤ m.budgetMap c →
    0 ≤ m.budgetMap adj.1 →
    m.radiusMap c + m.radiusMap adj.1 ≤ sideLen width height adj.2
  resolved_lt_side : ∀ c, ∀ adj ∈ ADJACENT_RELATIONS c, 0 ≤ m.budgetMap c →
    m.budgetMap adj.1 < 0 → 0 < snap adj.1 →
    m.budgetMap c < sideLen width height adj.2
  pos_budget : ∀ c, 0 ≤ m.budgetMap c → 0 < snap c → 0 < m.budgetMap c

lemma SolverInv.radius_nonneg {width height : ℝ} {snap : CornerId → ℝ}
    {m : CornerMaps} (hm : SolverInv width height snap m)
    (hsnap : ∀ x, 0 ≤ snap x) (x : CornerId) : 0 ≤ m.radiusMap x := by
  by_cases hb : 0 ≤ m.budgetMap x
  · rw [hm.resolved_radius x hb]
    exact le_min (hsnap x) hb
  · rw [hm.unresolved_radius x (lt_of_not_le hb)]
    exact hsnap x

lemma SolverInv.radius_le_budget {width height : ℝ} {snap : CornerId → ℝ}
    {m : CornerMaps} (hm : SolverInv width height snap m) {x : CornerId}
    (hb : 0 ≤ m.budgetMap x) : m.radiusMap x ≤ m.budgetMap x := by
  rw [hm.resolved_radius x hb]
  exact min_le_right _ _

/-- Under the invariant, the *current* radius of a corner is zero exactly when
its *requested* radius is zero: a corner with a positive requested radius is
never clamped all the way to zero. -/
lemma SolverInv.radius_eq_zero_iff {width height : ℝ} {snap : CornerId → ℝ}
    {m : CornerMaps} (hm : SolverInv width height snap m)
    (hsnap : ∀ x, 0 ≤ snap x) (x : CornerId) :
    m.radiusMap x = 0 ↔ snap x = 0 := by
  constructor
  · intro h0
    by_contra hne
    have hpos : 0 < snap x := lt_of_le_of_ne (hsnap x) (Ne.symm hne)
    by_cases hb : 0 ≤ m.budgetMap x
    · have hβ : 0 < m.budgetMap x := hm.pos_budget x hb hpos
      rw [hm.resolved_radius x hb] at h0
      have := lt_min hpos hβ
      linarith [h0 ▸ this]
    · rw [hm.unresolved_radius x (lt_of_not_le hb)] at h0
      exact hne h0
  · intro h0
    by_cases hb : 0 ≤ m.budgetMap x
    · rw [hm.resolved_radius x hb, h0]
      exact min_eq_left hb
    · rw [hm.unresolved_radius x (lt_of_not_le hb)]
      exact h0

lemma sideLen_pos {width height : ℝ} (hw : 0 < width) (hh : 0 < height)
    (e : EdgeOrientation) : 0 < sideLen width height e := by
  cases e <;> simpa [sideLen]

/-- Branch-by-branch bounds for one `Math.min` candidate inside
`normalizeCorners`. -/
lemma budgetCandidate_props {width height : ℝ} {snap : CornerId → ℝ}
    {m : CornerMaps} (hw : 0 < width) (hh : 0 < height)
    (hsnap : ∀ x, 0 ≤ snap x) (hm : SolverInv width height snap m)
    {k : CornerId} {adj : CornerId × EdgeOrientation}
    (hadj : adj ∈ ADJACENT_RELATIONS k) :
    0 ≤ budgetCandidate width height (snap k) m adj ∧
    budgetCandidate width height (snap k) m adj ≤ sideLen width height adj.2 ∧
    (0 ≤ m.budgetMap adj.1 →
      budgetCandidate width height (snap k) m adj ≤
        sideLen width height adj.2 - m.budgetMap adj.1) ∧
    (m.budgetMap adj.1 < 0 → 0 < snap adj.1 →
      budgetCandidate width height (snap k) m adj <
        sideLen width height adj.2) ∧
    (m.budgetMap k < 0 → 0 < snap k →
      0 < budgetCandidate width height (snap k) m adj) := by
  have hL : 0 < sideLen width height adj.2 := sideLen_pos hw hh adj.2
  have hsymm : (k, adj.2) ∈ ADJACENT_RELATIONS adj.1 :=
    adjacent_symm k adj.1 adj.2 (by simpa using hadj)
  have hβa_le : 0 ≤ m.budgetMap adj.1 →
      m.budgetMap adj.1 ≤ sideLen width height adj.2 := fun hb =>
    hm.budget_le_side adj.1 (k, adj.2) hsymm hb
  have hρa : 0 ≤ m.radiusMap adj.1 := hm.radius_nonneg hsnap adj.1
  simp only [budgetCandidate]
  split_ifs with h1 h2
  · -- both the snapshot radius and the neighbour's current radius are 0
    refine ⟨le_rfl, hL.le, fun hb => sub_nonneg.mpr (hβa_le hb), fun _ _ => hL,
      fun hk hksk => absurd h1.1 (by linarith)⟩
  · -- the neighbour is already resolved: candidate is `side − its budget`
    refine ⟨sub_nonneg.mpr (hβa_le h2), sub_le_self _ h2, fun _ => le_rfl,
      fun hba _ => absurd h2 (not_le.mpr hba), fun hk hksk => ?_⟩
    have hlt : m.budgetMap adj.1 < sideLen width height adj.2 :=
      hm.resolved_lt_side adj.1 (k, adj.2) hsymm h2 hk hksk
    linarith
  · -- the neighbour is unresolved: proportional split of the edge
    have hba : m.budgetMap adj.1 < 0 := lt_of_not_le h2
    have hρeq : m.radiusMap adj.1 = snap adj.1 :=
      hm.unresolved_radius adj.1 hba
    have hD : 0 ≤ snap k + m.radiusMap adj.1 := add_nonneg (hsnap k) hρa
    have hfrac_le : snap k / (snap k + m.radiusMap adj.1) ≤ 1 := by
      rcases eq_or_lt_of_le hD with hD0 | hDpos
      · rw [← hD0, div_zero]; norm_num
      · exact (div_le_one hDpos).mpr (le_add_of_nonneg_right hρa)
    refine ⟨mul_nonneg (div_nonneg (hsnap k) hD) hL.le, ?_, fun hb => absurd hb h2,
      fun _ hpos => ?_, fun hk hksk => ?_⟩
    · calc snap k / (snap k + m.radiusMap adj.1) * sideLen width height adj.2
          ≤ 1 * sideLen width height adj.2 :=
            mul_le_mul_of_nonneg_right hfrac_le hL.le
        _ = sideLen width height adj.2 := one_mul _
    · have hDpos : 0 < snap k + m.radiusMap adj.1 := by rw [hρeq]; linarith [hsnap k]
      have hfrac_lt : snap k / (snap k + m.radiusMap adj.1) < 1 := by
        rw [div_lt_one hDpos, hρeq]
        linarith
      calc snap k / (snap k + m.radiusMap adj.1) * sideLen width height adj.2
          < 1 * sideLen width height adj.2 :=
            mul_lt_mul_of_pos_right hfrac_lt hL
        _ = sideLen width height adj.2 := one_mul _
    · have hDpos : 0 < snap k + m.radiusMap adj.1 := by linarith
      exact mul_pos (div_pos hksk hDpos) hL

/-- Processing a not-yet-resolved corner preserves the invariant and marks the
corner as resolved. -/
lemma resolveCorner_preserves {width height : ℝ} {snap : CornerId → ℝ}
    {m : CornerMaps} (hw : 0 < width) (hh : 0 < height)
    (hsnap : ∀ x, 0 ≤ snap x) (hm : SolverInv width height snap m)
    (k : CornerId) (hk : m.budgetMap k < 0) :
    SolverInv width height snap (resolveCorner width height snap m k) ∧
    0 ≤ (resolveCorner width height snap m k).budgetMap k := by
  set B := minList ((ADJACENT_RELATIONS k).map
    (budgetCandidate width height (snap k) m)) with hBdef
  have hmapne : (ADJACENT_RELATIONS k).map
      (budgetCandidate width height (snap k) m) ≠ [] := by
    simpa using ADJACENT_RELATIONS_ne_nil k
  have hBle : ∀ adj ∈ ADJACENT_RELATIONS k,
      B ≤ budgetCandidate width height (snap k) m adj := fun adj ha =>
    minList_le_of_mem (List.mem_map_of_mem _ ha)
  have hB0 : 0 ≤ B := by
    refine le_minList hmapne ?_
    intro x hx
    rcases List.mem_map.mp hx with ⟨adj, ha, rfl⟩
    exact (budgetCandidate_props hw hh hsnap hm ha).1
  have hBside : ∀ adj ∈ ADJACENT_RELATIONS k, B ≤ sideLen width height adj.2 :=
    fun adj ha => le_trans (hBle adj ha)
      (budgetCandidate_props hw hh hsnap hm ha).2.1
  have hBrem : ∀ adj ∈ ADJACENT_RELATIONS k, 0 ≤ m.budgetMap adj.1 →
      B ≤ sideLen width height adj.2 - m.budgetMap adj.1 := fun adj ha hb =>
    le_trans (hBle adj ha) ((budgetCandidate_props hw hh hsnap hm ha).2.2.1 hb)
  have hBlt : ∀ adj ∈ ADJACENT_RELATIONS k, m.budgetMap adj.1 < 0 →
      0 < snap adj.1 → B < sideLen width height adj.2 := fun adj ha hb hs =>
    lt_of_le_of_lt (hBle adj ha)
      ((budgetCandidate_props hw hh hsnap hm ha).2.2.2.1 hb hs)
  have hBpos : 0 < snap k → 0 < B := by
    intro hks
    refine lt_minList hmapne ?_
    intro x hx
    rcases List.mem_map.mp hx with ⟨adj, ha, rfl⟩
    exact (budgetCandidate_props hw hh hsnap hm ha).2.2.2.2 hk hks
  have hβ : ∀ x, (resolveCorner width height snap m k).budgetMap x =
      if x = k then B else m.budgetMap x := fun x =>
    resolveCorner_budgetMap width height snap m k x
  have hρ : ∀ x, (resolveCorner width height snap m k).radiusMap x =
      if x = k then min (snap k) B else m.radiusMap x := fun x =>
    resolveCorner_radiusMap width height snap m k x
  refine ⟨⟨?_, ?_, ?_, ?_, ?_, ?_⟩, ?_⟩
  · -- unresolved_radius
    intro c hc
    rw [hβ] at hc
    rw [hρ]
    by_cases hck : c = k
    · rw [if_pos hck] at hc; linarith
    · rw [if_neg hck] at hc ⊢
      exact hm.unresolved_radius c hc
  · -- resolved_radius
    intro c hc
    rw [hβ] at hc
    rw [hρ, hβ]
    by_cases hck : c = k
    · subst hck; simp
    · rw [if_neg hck] at hc ⊢
      rw [if_neg hck]
      exact hm.resolved_radius c hc
  · -- budget_le_side
    intro c adj hadj hc
    rw [hβ] at hc
    rw [hβ]
    by_cases hck : c = k
    · rw [if_pos hck] at hc ⊢; subst hck
      exact hBside adj hadj
    · rw [if_neg hck] at hc ⊢
      exact hm.budget_le_side c adj hadj hc
  · -- pair_sum
    intro c adj hadj hc ha
    rw [hβ] at hc ha
    rw [hρ, hρ]
    by_cases hck : c = k
    · subst hck
      have hak : adj.1 ≠ c := adjacent_ne c adj hadj
      rw [if_pos rfl] at hc ⊢
      rw [if_neg hak] at ha ⊢
      have h1 : B ≤ sideLen width height adj.2 - m.budgetMap adj.1 :=
        hBrem adj hadj ha
      have h2 : m.radiusMap adj.1 ≤ m.budgetMap adj.1 := hm.radius_le_budget ha
      have h3 : min (snap c) B ≤ B := min_le_right _ _
      linarith
    · rw [if_neg hck] at hc ⊢
      by_cases hak : adj.1 = k
      · rw [if_pos hak] at ha ⊢
        have hsym : (c, adj.2) ∈ ADJACENT_RELATIONS k := by
          have : (adj.1, adj.2) ∈ ADJACENT_RELATIONS c := by simpa using hadj
          rw [hak] at this
          exact adjacent_symm c k adj.2 this
        have h1 : B ≤ sideLen width height adj.2 - m.budgetMap c :=
          hBrem (c, adj.2) hsym hc
        have h2 : m.radiusMap c ≤ m.budgetMap c := hm.radius_le_budget hc
        have h3 : min (snap k) B ≤ B := min_le_right _ _
        linarith
      · rw [if_neg hak] at ha ⊢
        exact hm.pair_sum c adj hadj hc ha
  · -- resolved_lt_side
    intro c adj hadj hc ha hs
    rw [hβ] at hc ha
    rw [hβ]
    by_cases hck : c = k
    · subst hck
      have hak : adj.1 ≠ c := adjacent_ne c adj hadj
      rw [if_pos rfl] at hc ⊢
      rw [if_neg hak] at ha
      exact hBlt adj hadj ha hs
    · rw [if_neg hck] at hc ⊢
      by_cases hak : adj.1 = k
      · rw [if_pos hak] at ha; linarith
      · rw [if_neg hak] at ha
        exact hm.resolved_lt_side c adj hadj hc ha hs
  · -- pos_budget
    intro c hc hs
    rw [hβ] at hc
    rw [hβ]
    by_cases hck : c = k
    · rw [if_pos hck] at hc ⊢; subst hck
      exact hBpos hs
    · rw [if_neg hck] at hc ⊢
      exact hm.pos_budget c hc hs
  · rw [hβ, if_pos rfl]
    exact hB0

/-- Folding `resolveCorner` over a duplicate-free list of unresolved corners
preserves the invariant, and afterwards every corner that was resolved before
or appears in the list is resolved. -/
lemma foldl_resolveCorner_inv {width height : ℝ} {snap : CornerId → ℝ}
    (hw : 0 < width) (hh : 0 < height) (hsnap : ∀ x, 0 ≤ snap x) :
    ∀ (l : List CornerId) (m : CornerMaps), l.Nodup →
      (∀ c ∈ l, m.budgetMap c < 0) → SolverInv width height snap m →
      SolverInv width height snap
        (l.foldl (resolveCorner width height snap) m) ∧
      (∀ c, (0 ≤ m.budgetMap c ∨ c ∈ l) →
        0 ≤ (l.foldl (resolveCorner width height snap) m).budgetMap c) := by
  intro l
  induction l with
  | nil =>
    intro m _ _ hm
    refine ⟨hm, ?_⟩
    intro c hc
    rcases hc with hc | hc
    · exact hc
    · cases hc
  | cons k t ih =>
    intro m hnd hunres hm
    rcases List.nodup_cons.mp hnd with ⟨hkt, htnd⟩
    have hk : m.budgetMap k < 0 := hunres k (List.mem_cons_self k t)
    obtain ⟨hm', hk'⟩ := resolveCorner_preserves hw hh hsnap hm k hk
    have hunres' : ∀ c ∈ t, (resolveCorner width height snap m k).budgetMap c < 0 := by
      intro c hc
      have hck : c ≠ k := fun hck => hkt (hck ▸ hc)
      rw [resolveCorner_budgetMap, if_neg hck]
      exact hunres c (List.mem_cons_of_mem k hc)
    obtain ⟨hfin, hprog⟩ := ih (resolveCorner width height snap m k) htnd hunres' hm'
    rw [List.foldl_cons]
    refine ⟨hfin, ?_⟩
    intro c hc
    rcases hc with hc | hc
    · by_cases hck : c = k
      · exact hprog c (Or.inl (by rw [hck]; exact hk'))
      · refine hprog c (Or.inl ?_)
        rw [resolveCorner_budgetMap, if_neg hck]
        exact hc
    · rcases List.mem_cons.mp hc with hck | hct
      · exact hprog c (Or.inl (by rw [hck]; exact hk'))
      · exact hprog c (Or.inr hct)

/-- The invariant holds for the output of the whole solver, and every corner
ends up resolved. -/
lemma normalizeCornersAux_inv {width height : ℝ} {snap : CornerId → ℝ}
    (hw : 0 < width) (hh : 0 < height) (hsnap : ∀ x, 0 ≤ snap x) :
    SolverInv width height snap (normalizeCornersAux width height snap) ∧
    ∀ c, 0 ≤ (normalizeCornersAux width height snap).budgetMap c := by
  have hinit : SolverInv width height snap
      ⟨snap, fun _ => (-1 : ℝ)⟩ := by
    refine ⟨fun c _ => rfl, fun c hc => absurd hc (by norm_num),
      fun c adj _ hc => absurd hc (by norm_num),
      fun c adj _ hc _ => absurd hc (by norm_num),
      fun c adj _ hc _ _ => absurd hc (by norm_num),
      fun c hc _ => absurd hc (by norm_num)⟩
  obtain ⟨hfin, hprog⟩ := foldl_resolveCorner_inv hw hh hsnap
    (sortDescending snap) ⟨snap, fun _ => (-1 : ℝ)⟩ (nodup_sortDescending snap)
    (fun c _ => by norm_num) hinit
  exact ⟨hfin, fun c => hprog c (Or.inr (mem_sortDescending snap c))⟩

lemma cornerRadiusMap_nonneg {tl tr br bl : ℝ} (htl : 0 ≤ tl) (htr : 0 ≤ tr)
    (hbr : 0 ≤ br) (hbl : 0 ≤ bl) :
    ∀ x, 0 ≤ cornerRadiusMap tl tr br bl x := by
  intro x
  cases x <;> simpa [cornerRadiusMap]

lemma normalizeCorners_inv {tl tr br bl width height : ℝ} (hw : 0 < width)
    (hh : 0 < height) (htl : 0 ≤ tl) (htr : 0 ≤ tr) (hbr : 0 ≤ br)
    (hbl : 0 ≤ bl) :
    SolverInv width height (cornerRadiusMap tl tr br bl)
      (normalizeCorners tl tr br bl width height) ∧
    ∀ c, 0 ≤ (normalizeCorners tl tr br bl width height).budgetMap c :=
  normalizeCornersAux_inv hw hh (cornerRadiusMap_nonneg htl htr hbr hbl)

/-! ## The specification's own description of the budget solver (for C2)

The claim describes each budget candidate in terms of the corners' *requested*
radii: 0 when both requested radii are 0, the remainder of the edge when the
neighbour is already resolved, and otherwise a proportional split computed from
the requested radii.  The source instead reads the neighbour's *current*
(possibly already clamped) radius from the mutated map.  The definitions below
follow the claim's wording; the theorem `C2_solver_matches_spec` shows the two
agree. -/

noncomputable def specBudgetCandidate (width height radius : ℝ)
    (snap : CornerId → ℝ) (m : CornerMaps)
    (adj : CornerId × EdgeOrientation) : ℝ :=
  if radius = 0 ∧ snap adj.1 = 0 then 0
  else
    let sl := sideLen width height adj.2
    if 0 ≤ m.budgetMap adj.1 then sl - m.budgetMap adj.1
    else radius / (radius + snap adj.1) * sl

noncomputable def specResolveCorner (width height : ℝ) (snap : CornerId → ℝ)
    (m : CornerMaps) (corner : CornerId) : CornerMaps :=
  let radius := snap corner
  let budget := minList ((ADJACENT_RELATIONS corner).map
    (specBudgetCandidate width height radius snap m))
  { radiusMap := setCorner m.radiusMap corner (min radius budget)
    budgetMap := setCorner m.budgetMap corner budget }

/-- The budget solver exactly as the claim words it: corners in descending
order of requested radius (ties in enumeration order), budgets from
`specBudgetCandidate`, radius clamped to the budget. -/
noncomputable def specNormalizeCorners (topLeftCornerRadius
    topRightCornerRadius bottomRightCornerRadius bottomLeftCornerRadius
    width height : ℝ) : CornerMaps :=
  let snap := cornerRadiusMap topLeftCornerRadius topRightCornerRadius
    bottomRightCornerRadius bottomLeftCornerRadius
  (sortDescending snap).foldl (specResolveCorner width height snap)
    { radiusMap := snap, budgetMap := fun _ => -1 }

lemma budgetCandidate_eq_spec {width height : ℝ} {snap : CornerId → ℝ}
    {m : CornerMaps} (hsnap : ∀ x, 0 ≤ snap x)
    (hm : SolverInv width height snap m) (k : CornerId)
    (adj : CornerId × EdgeOrientation) :
    budgetCandidate width height (snap k) m adj =
      specBudgetCandidate width height (snap k) snap m adj := by
  have hiff : m.radiusMap adj.1 = 0 ↔ snap adj.1 = 0 :=
    hm.radius_eq_zero_iff hsnap adj.1
  simp only [budgetCandidate, specBudgetCandidate]
  by_cases h1 : snap k = 0 ∧ m.radiusMap adj.1 = 0
  · have h1' : snap k = 0 ∧ snap adj.1 = 0 := ⟨h1.1, hiff.mp h1.2⟩
    rw [if_pos h1, if_pos h1']
  · have h1' : ¬(snap k = 0 ∧ snap adj.1 = 0) := fun h => h1 ⟨h.1, hiff.mpr h.2⟩
    rw [if_neg h1, if_neg h1']
    by_cases h2 : 0 ≤ m.budgetMap adj.1
    · rw [if_pos h2, if_pos h2]
    · rw [if_neg h2, if_neg h2, hm.unresolved_radius adj.1 (lt_of_not_le h2)]

lemma resolveCorner_eq_spec {width height : ℝ} {snap : CornerId → ℝ}
    {m : CornerMaps} (hsnap : ∀ x, 0 ≤ snap x)
    (hm : SolverInv width height snap m) (k : CornerId) :
    resolveCorner width height snap m k =
      specResolveCorner width height snap m k := by
  have hmap : (ADJACENT_RELATIONS k).map
      (budgetCandidate width height (snap k) m) =
      (ADJACENT_RELATIONS k).map
        (specBudgetCandidate width height (snap k) snap m) :=
    List.map_congr_left (fun adj _ => budgetCandidate_eq_spec hsnap hm k adj)
  simp only [resolveCorner, specResolveCorner, hmap]

lemma foldl_resolveCorner_eq_spec {width height : ℝ} {snap : CornerId → ℝ}
    (hw : 0 < width) (hh : 0 < height) (hsnap : ∀ x, 0 ≤ snap x) :
    ∀ (l : List CornerId) (m : CornerMaps), l.Nodup →
      (∀ c ∈ l, m.budgetMap c < 0) → SolverInv width height snap m →
      l.foldl (resolveCorner width height snap) m =
        l.foldl (specResolveCorner width height snap) m := by
  intro l
  induction l with
  | nil => intro m _ _ _; rfl
  | cons k t ih =>
    intro m hnd hunres hm
    rcases List.nodup_cons.mp hnd with ⟨hkt, htnd⟩
    have hk : m.budgetMap k < 0 := hunres k (List.mem_cons_self k t)
    obtain ⟨hm', _⟩ := resolveCorner_preserves hw hh hsnap hm k hk
    have hunres' : ∀ c ∈ t,
        (resolveCorner width height snap m k).budgetMap c < 0 := by
      intro c hc
      have hck : c ≠ k := fun hck => hkt (hck ▸ hc)
      rw [resolveCorner_budgetMap, if_neg hck]
      exact hunres c (List.mem_cons_of_mem k hc)
    rw [List.foldl_cons, List.foldl_cons, ← resolveCorner_eq_spec hsnap hm k]
    exact ih (resolveCorner width height snap m k) htnd hunres' hm'

/-! ## Claim C1 -/

/-- C1: for every input to the path builder (positive width and height, four
nonnegative requested radii), the resolved radii assigned by `normalizeCorners`
to any two corners sharing an edge sum to at most the length of that shared
edge (width for the top and bottom edges, height for the left and right
edges) — exactly, hence in particular within floating tolerance. -/
theorem C1_adjacent_resolved_radii_le_edge
    (topLeftCornerRadius topRightCornerRadius bottomRightCornerRadius
      bottomLeftCornerRadius width height : ℝ)
    (hw : 0 < width) (hh : 0 < height)
    (htl : 0 ≤ topLeftCornerRadius) (htr : 0 ≤ topRightCornerRadius)
    (hbr : 0 ≤ bottomRightCornerRadius) (hbl : 0 ≤ bottomLeftCornerRadius)
    (nc : CornerMaps)
    (hnc : nc = normalizeCorners topLeftCornerRadius topRightCornerRadius
      bottomRightCornerRadius bottomLeftCornerRadius width height) :
    nc.radiusMap .topLeft + nc.radiusMap .topRight ≤ width ∧
    nc.radiusMap .bottomLeft + nc.radiusMap .bottomRight ≤ width ∧
    nc.radiusMap .topLeft + nc.radiusMap .bottomLeft ≤ height ∧
    nc.radiusMap .topRight + nc.radiusMap .bottomRight ≤ height := by
  subst hnc
  obtain ⟨hinv, hres⟩ := normalizeCorners_inv hw hh htl htr hbr hbl
  refine ⟨?_, ?_, ?_, ?_⟩
  · simpa [sideLen] using hinv.pair_sum .topLeft (.topRight, .top)
      (by simp [ADJACENT_RELATIONS]) (hres .topLeft) (hres .topRight)
  · simpa [sideLen] using hinv.pair_sum .bottomLeft (.bottomRight, .bottom)
      (by simp [ADJACENT_RELATIONS]) (hres .bottomLeft) (hres .bottomRight)
  · simpa [sideLen] using hinv.pair_sum .topLeft (.bottomLeft, .left)
      (by simp [ADJACENT_RELATIONS]) (hres .topLeft) (hres .bottomLeft)
  · simpa [sideLen] using hinv.pair_sum .topRight (.bottomRight, .right)
      (by simp [ADJACENT_RELATIONS]) (hres .topRight) (hres .bottomRight)

theorem C1_adjacent_resolved_radii_le_edge_witness :
    (normalizeCorners 60 4 3 2 100 40).radiusMap .topLeft +
        (normalizeCorners 60 4 3 2 100 40).radiusMap .topRight ≤ 100 ∧
    (normalizeCorners 60 4 3 2 100 40).radiusMap .bottomLeft +
        (normalizeCorners 60 4 3 2 100 40).radiusMap .bottomRight ≤ 100 ∧
    (normalizeCorners 60 4 3 2 100 40).radiusMap .topLeft +
        (normalizeCorners 60 4 3 2 100 40).radiusMap .bottomLeft ≤ 40 ∧
    (normalizeCorners 60 4 3 2 100 40).radiusMap .topRight +
        (normalizeCorners 60 4 3 2 100 40).radiusMap .bottomRight ≤ 40 :=
  C1_adjacent_resolved_radii_le_edge 60 4 3 2 100 40 (by norm_num)
    (by norm_num) (by norm_num) (by norm_num) (by norm_num) (by norm_num)
    _ rfl

/-! ## Claim C2 -/

/-- C2: when the four requested radii are not all equal, the budget solver
behaves exactly as the claim describes it: corners are processed in descending
order of requested radius with ties broken by the enumeration order
`topLeft, topRight, bottomLeft, bottomRight`; each corner's budget is the
minimum over its two adjacent corners of 0 (when both requested radii are 0),
`edge length − neighbour budget` (when the neighbour is already resolved), or
`radius / (radius + neighbour radius) * edge length`; and the corner's
resolved radius is `min(requested radius, budget)`.  This is stated as
equality between the source solver and `specNormalizeCorners`, the verbatim
formalisation of the claim's wording. -/
theorem C2_solver_matches_spec
    (topLeftCornerRadius topRightCornerRadius bottomRightCornerRadius
      bottomLeftCornerRadius width height : ℝ)
    (hw : 0 < width) (hh : 0 < height)
    (htl : 0 ≤ topLeftCornerRadius) (htr : 0 ≤ topRightCornerRadius)
    (hbr : 0 ≤ bottomRightCornerRadius) (hbl : 0 ≤ bottomLeftCornerRadius)
    (_hne : ¬(topLeftCornerRadius = topRightCornerRadius ∧
      topRightCornerRadius = bottomRightCornerRadius ∧
      bottomRightCornerRadius = bottomLeftCornerRadius)) :
    normalizeCorners topLeftCornerRadius topRightCornerRadius
        bottomRightCornerRadius bottomLeftCornerRadius width height =
      specNormalizeCorners topLeftCornerRadius topRightCornerRadius
        bottomRightCornerRadius bottomLeftCornerRadius width height := by
  have hsnap := cornerRadiusMap_nonneg htl htr hbr hbl
  have hinit : SolverInv width height
      (cornerRadiusMap topLeftCornerRadius topRightCornerRadius
        bottomRightCornerRadius bottomLeftCornerRadius)
      ⟨cornerRadiusMap topLeftCornerRadius topRightCornerRadius
        bottomRightCornerRadius bottomLeftCornerRadius,
        fun _ => (-1 : ℝ)⟩ := by
    refine ⟨fun c _ => rfl, fun c hc => absurd hc (by norm_num),
      fun c adj _ hc => absurd hc (by norm_num),
      fun c adj _ hc _ => absurd hc (by norm_num),
      fun c adj _ hc _ _ => absurd hc (by norm_num),
      fun c hc _ => absurd hc (by norm_num)⟩
  exact foldl_resolveCorner_eq_spec hw hh hsnap _ _
    (nodup_sortDescending _) (fun c _ => by norm_num) hinit

theorem C2_solver_matches_spec_witness :
    normalizeCorners 60 4 3 2 100 40 = specNormalizeCorners 60 4 3 2 100 40 :=
  C2_solver_matches_spec 60 4 3 2 100 40 (by norm_num) (by norm_num)
    (by norm_num) (by norm_num) (by norm_num) (by norm_num) (by norm_num)

/-! ## The corner profile calculator (source: `computeCornerProfile`) -/

/-- Source: `degToRad`. -/
noncomputable def degToRad (degrees : ℝ) : ℝ := degrees * Real.pi / 180

/-- Source: `BezierPatch`. -/
structure BezierPatch where
  a : ℝ
  b : ℝ
  c : ℝ
  d : ℝ
  p : ℝ
  cornerRadius : ℝ
  arcSectionLength : ℝ

/-- Source: `computeCornerProfile` (the corner-profile cache it consults is
semantically transparent and therefore omitted: a hit returns the value
computed by this same formula for the same key). -/
noncomputable def computeCornerProfile (cornerRadius cornerSmoothing : ℝ)
    (preserveSmoothing : Bool) (roundingAndSmoothingBudget : ℝ) : BezierPatch :=
  let p0 := (1 + cornerSmoothing) * cornerRadius
  let smoothing := if preserveSmoothing then cornerSmoothing
    else min cornerSmoothing (roundingAndSmoothingBudget / cornerRadius - 1)
  let p := if preserveSmoothing then p0 else min p0 roundingAndSmoothingBudget
  let arcMeasure := 90 * (1 - smoothing)
  let arcSectionLength :=
    Real.sin (degToRad (arcMeasure / 2)) * cornerRadius * Real.sqrt 2
  let angleAlpha := (90 - arcMeasure) / 2
  let p3ToP4Distance := cornerRadius * Real.tan (degToRad (angleAlpha / 2))
  let angleBeta := 45 * smoothing
  let c := p3ToP4Distance * Real.cos (degToRad angleBeta)
  let d := c * Real.tan (degToRad angleBeta)
  let b := (p - arcSectionLength - c - d) / 3
  let a := 2 * b
  if preserveSmoothing ∧ roundingAndSmoothingBudget < p then
    let p1ToP3MaxDistance := roundingAndSmoothingBudget - d - arcSectionLength - c
    let minA := p1ToP3MaxDistance / 6
    let maxB := p1ToP3MaxDistance - minA
    let b2 := min b maxB
    let a2 := p1ToP3MaxDistance - b2
    { a := a2, b := b2, c := c, d := d,
      p := min p roundingAndSmoothingBudget,
      cornerRadius := cornerRadius, arcSectionLength := arcSectionLength }
  else
    { a := a, b := b, c := c, d := d, p := p,
      cornerRadius := cornerRadius, arcSectionLength := arcSectionLength }

/-! ## Claim C3 -/

/-- The corner-profile derivation exactly as the claim words it (the
`preserveSmoothing = false` regime): `p = (1 + s)·radius`; the smoothing is
clamped to `min(s, budget/radius − 1)` and `p` to the budget; then
`arcMeasure = 90(1 − s)` degrees, `arcChord = sin(arcMeasure/2)·radius·√2`,
`alpha = (90 − arcMeasure)/2`, `p3ToP4 = radius·tan(rad(alpha/2))`,
`beta = 45·s`, `c = p3ToP4·cos(rad(beta))`, `d = c·tan(rad(beta))`,
`b = (p − arcChord − c − d)/3`, `a = 2b` (each later formula using the
clamped smoothing). -/
noncomputable def specCornerProfile (radius smoothing budget : ℝ) :
    BezierPatch :=
  let p := (1 + smoothing) * radius
  let sClamped := min smoothing (budget / radius - 1)
  let pClamped := min p budget
  let arcMeasure := 90 * (1 - sClamped)
  let arcChord := Real.sin (degToRad (arcMeasure / 2)) * radius * Real.sqrt 2
  let alpha := (90 - arcMeasure) / 2
  let p3ToP4 := radius * Real.tan (degToRad (alpha / 2))
  let beta := 45 * sClamped
  let cc := p3ToP4 * Real.cos (degToRad beta)
  let dd := cc * Real.tan (degToRad beta)
  let bb := (pClamped - arcChord - cc - dd) / 3
  { a := 2 * bb, b := bb, c := cc, d := dd, p := pClamped,
    cornerRadius := radius, arcSectionLength := arcChord }

/-- C3: for a corner with resolved radius > 0, smoothing in [0, 1] and budget
at least the radius, `computeCornerProfile` (in the `preserveSmoothing =
false` regime, the one whose clamping the claim describes) computes exactly
the stated derivation, formalised verbatim as `specCornerProfile`. -/
theorem C3_profile_matches_derivation (cornerRadius cornerSmoothing
    roundingAndSmoothingBudget : ℝ) (_hr : 0 < cornerRadius)
    (_hs0 : 0 ≤ cornerSmoothing) (_hs1 : cornerSmoothing ≤ 1)
    (_hbud : cornerRadius ≤ roundingAndSmoothingBudget) :
    computeCornerProfile cornerRadius cornerSmoothing false
        roundingAndSmoothingBudget =
      specCornerProfile cornerRadius cornerSmoothing
        roundingAndSmoothingBudget := by
  simp [computeCornerProfile, specCornerProfile]

theorem C3_profile_matches_derivation_witness :
    computeCornerProfile 2 (1 / 2) false 3 = specCornerProfile 2 (1 / 2) 3 :=
  C3_profile_matches_derivation 2 (1 / 2) 3 (by norm_num) (by norm_num)
    (by norm_num) (by norm_num)

/-! ## Claim C4 -/

/-- The claim's description of the `preserveSmoothing = true` overrun case:
the base derivation's `c`, `d` and arc chord are kept, the remaining linear
extent `budget − d − arcChord − c` is split with `b` capped at five sixths of
it and `a` taking the rest, and `p` is clamped to the budget. -/
noncomputable def specCornerProfileOverrun (radius smoothing budget : ℝ) :
    BezierPatch :=
  let p := (1 + smoothing) * radius
  let arcMeasure := 90 * (1 - smoothing)
  let arcChord := Real.sin (degToRad (arcMeasure / 2)) * radius * Real.sqrt 2
  let alpha := (90 - arcMeasure) / 2
  let p3ToP4 := radius * Real.tan (degToRad (alpha / 2))
  let beta := 45 * smoothing
  let cc := p3ToP4 * Real.cos (degToRad beta)
  let dd := cc * Real.tan (degToRad beta)
  let bb := (p - arcChord - cc - dd) / 3
  let remaining := budget - dd - arcChord - cc
  let bb2 := min bb (5 / 6 * remaining)
  { a := remaining - bb2, b := bb2, c := cc, d := dd, p := min p budget,
    cornerRadius := radius, arcSectionLength := arcChord }

/-- C4: when `preserveSmoothing = true` and the unclamped extent
`p = (1 + s)·radius` exceeds the budget, the recomputed profile keeps `c`,
`d` and the arc chord, caps `b` at five sixths of
`budget − d − arcChord − c`, gives `a` the rest, and clamps `p` to the
budget; consequently `a + b + c + d + arcChord = budget`. -/
theorem C4_preserve_smoothing_overrun (cornerRadius cornerSmoothing
    roundingAndSmoothingBudget : ℝ)
    (hp : roundingAndSmoothingBudget < (1 + cornerSmoothing) * cornerRadius) :
    computeCornerProfile cornerRadius cornerSmoothing true
        roundingAndSmoothingBudget =
      specCornerProfileOverrun cornerRadius cornerSmoothing
        roundingAndSmoothingBudget ∧
    (computeCornerProfile cornerRadius cornerSmoothing true
        roundingAndSmoothingBudget).p = roundingAndSmoothingBudget ∧
    (computeCornerProfile cornerRadius cornerSmoothing true
          roundingAndSmoothingBudget).a +
        (computeCornerProfile cornerRadius cornerSmoothing true
          roundingAndSmoothingBudget).b +
        (computeCornerProfile cornerRadius cornerSmoothing true
          roundingAndSmoothingBudget).c +
        (computeCornerProfile cornerRadius cornerSmoothing true
          roundingAndSmoothingBudget).d +
        (computeCornerProfile cornerRadius cornerSmoothing true
          roundingAndSmoothingBudget).arcSectionLength =
      roundingAndSmoothingBudget := by
  have hEq : computeCornerProfile cornerRadius cornerSmoothing true
      roundingAndSmoothingBudget =
      specCornerProfileOverrun cornerRadius cornerSmoothing
        roundingAndSmoothingBudget := by
    simp [computeCornerProfile, specCornerProfileOverrun, hp,
      BezierPatch.mk.injEq]
    congr 1
    ring
  refine ⟨hEq, ?_, ?_⟩
  · rw [hEq]
    simp only [specCornerProfileOverrun]
    exact min_eq_right hp.le
  · rw [hEq]
    simp only [specCornerProfileOverrun]
    ring

theorem C4_preserve_smoothing_overrun_witness :
    computeCornerProfile 1 1 true 1 = specCornerProfileOverrun 1 1 1 ∧
    (computeCornerProfile 1 1 true 1).p = 1 ∧
    (computeCornerProfile 1 1 true 1).a + (computeCornerProfile 1 1 true 1).b +
        (computeCornerProfile 1 1 true 1).c +
        (computeCornerProfile 1 1 true 1).d +
        (computeCornerProfile 1 1 true 1).arcSectionLength = 1 :=
  C4_preserve_smoothing_overrun 1 1 1 (by norm_num)

/-! ## Claim C10 -/

/-- When the resolved radius of a corner is zero and `preserveSmoothing` is
false, the profile's consumed extent `p` and arc chord are both zero, even
though the source divides by the radius without a guard (in this total
embedding, `budget / 0 = 0`). -/
lemma computeCornerProfile_zero_radius (cornerSmoothing
    roundingAndSmoothingBudget : ℝ) (hb : 0 ≤ roundingAndSmoothingBudget) :
    (computeCornerProfile 0 cornerSmoothing false
        roundingAndSmoothingBudget).p = 0 ∧
    (computeCornerProfile 0 cornerSmoothing false
        roundingAndSmoothingBudget).arcSectionLength = 0 := by
  simp [computeCornerProfile, min_eq_left hb]

/-- A concrete witness that the solver does hand a resolved radius of zero to
the profile calculator when the four requested radii differ. -/
lemma normalizeCorners_radius_zero {tl tr br bl width height : ℝ}
    (hw : 0 < width) (hh : 0 < height) (htl : 0 ≤ tl) (htr : 0 ≤ tr)
    (hbr : 0 ≤ br) (hbl : 0 ≤ bl) (c : CornerId)
    (hc : cornerRadiusMap tl tr br bl c = 0) :
    (normalizeCorners tl tr br bl width height).radiusMap c = 0 := by
  obtain ⟨hinv, hres⟩ := normalizeCorners_inv hw hh htl htr hbr hbl
  rw [hinv.resolved_radius c (hres c), hc]
  exact min_eq_left (hres c)

/-- C10: `computeCornerProfile` divides `roundingAndSmoothingBudget` by
`cornerRadius` with no zero guard; in this total embedding (guarded division,
`x / 0 = 0`) the division's degenerate branch is reached exactly at
`cornerRadius = 0`, and there the function still returns a well-defined patch
with `p = 0` and `arcSectionLength = 0` (so the corner's emitted trace is a
zero-length straight segment).  Such calls do occur: with differing requested
radii `(topLeft, topRight, bottomRight, bottomLeft) = (0, 5, 0, 0)` on a
100×100 rectangle the solver resolves the top-left radius to 0, which
`buildSquirclePath` passes straight to `computeCornerProfile`. -/
theorem C10_zero_radius_profile (cornerSmoothing
    roundingAndSmoothingBudget : ℝ) (hb : 0 ≤ roundingAndSmoothingBudget) :
    ((computeCornerProfile 0 cornerSmoothing false
        roundingAndSmoothingBudget).p = 0 ∧
      (computeCornerProfile 0 cornerSmoothing false
        roundingAndSmoothingBudget).arcSectionLength = 0) ∧
    (normalizeCorners 0 5 0 0 100 100).radiusMap CornerId.topLeft = 0 :=
  ⟨computeCornerProfile_zero_radius cornerSmoothing
      roundingAndSmoothingBudget hb,
    normalizeCorners_radius_zero (by norm_num) (by norm_num) (by norm_num)
      (by norm_num) (by norm_num) (by norm_num) CornerId.topLeft rfl⟩

theorem C10_zero_radius_profile_witness :
    ((computeCornerProfile 0 (1 / 2) false 3).p = 0 ∧
      (computeCornerProfile 0 (1 / 2) false 3).arcSectionLength = 0) ∧
    (normalizeCorners 0 5 0 0 100 100).radiusMap CornerId.topLeft = 0 :=
  C10_zero_radius_profile (1 / 2) 3 (by norm_num)

/-! ## Path segments and the assembler (source: `joinCornerProfiles`,
`traceTopRight`, `traceBottomRight`, `traceBottomLeft`, `traceTopLeft`,
`formatSegment`)

The emitted path string is embedded as a list of structured commands carrying
the numbers that would be printed.  `formatSegment` applies `toFixed(4)` to
every *interpolated* value inside the four corner traces; that rounding is
`toFixed4` below.  The `M`/`L` glue segments of `joinCornerProfiles` and the
all-equal rectangle path interpolate their values directly into the template
string with no rounding, so those numbers are carried unrounded.  Literal
digits in the templates (the `0`s, the arc's `0 0 1` flags) and a `-` sign
written outside an interpolation are carried exactly as they print. -/

inductive Seg where
  | moveTo (x y : ℝ)
  | lineTo (x y : ℝ)
  | lineRel (dx dy : ℝ)
  | cubicRel (x1 y1 x2 y2 x y : ℝ)
  | arcRel (rx ry xRot largeArcFlag sweepFlag dx dy : ℝ)
  | closePath

/-- The numeric literals printed by one segment, in print order. -/
def segNumerals : Seg → List ℝ
  | .moveTo x y => [x, y]
  | .lineTo x y => [x, y]
  | .lineRel dx dy => [dx, dy]
  | .cubicRel x1 y1 x2 y2 x y => [x1, y1, x2, y2, x, y]
  | .arcRel rx ry xr la sw dx dy => [rx, ry, xr, la, sw, dx, dy]
  | .closePath => []

/-- All numeric literals printed by a path, in print order. -/
def pathNumerals (l : List Seg) : List ℝ := l.flatMap segNumerals

/-- `value.toFixed(4)` on an exact real value: round to the nearest multiple
of `1/10000`, half away from the smaller representation (i.e. `round`). -/
noncomputable def toFixed4 (x : ℝ) : ℝ := (round (x * 10000) : ℤ) / 10000

lemma toFixed4_int (n : ℤ) : toFixed4 ((n : ℝ) / 10000) = (n : ℝ) / 10000 := by
  rw [toFixed4, div_mul_cancel₀ _ (by norm_num : (10000 : ℝ) ≠ 0),
    round_intCast]

lemma toFixed4_idem (x : ℝ) : toFixed4 (toFixed4 x) = toFixed4 x :=
  toFixed4_int _

lemma toFixed4_zero : toFixed4 0 = 0 := by
  simp [toFixed4]

lemma toFixed4_one : toFixed4 1 = 1 := by
  have h : (1 : ℝ) * 10000 = ((10000 : ℤ) : ℝ) := by norm_num
  rw [toFixed4, h, round_intCast]
  norm_num

lemma toFixed4_neg_fix (x : ℝ) : toFixed4 (-toFixed4 x) = -toFixed4 x := by
  have h : -toFixed4 x = ((-round (x * 10000) : ℤ) : ℝ) / 10000 := by
    rw [toFixed4]
    push_cast
    ring
  rw [h, toFixed4_int]

/-- Source: `traceTopRight` (`if (cornerRadius)` is the truthiness test
`cornerRadius ≠ 0`). -/
noncomputable def traceTopRight (pp : BezierPatch) : List Seg :=
  if pp.cornerRadius ≠ 0 then
    [Seg.cubicRel (toFixed4 pp.a) 0 (toFixed4 (pp.a + pp.b)) 0
        (toFixed4 (pp.a + pp.b + pp.c)) (toFixed4 pp.d),
      Seg.arcRel (toFixed4 pp.cornerRadius) (toFixed4 pp.cornerRadius) 0 0 1
        (toFixed4 pp.arcSectionLength) (toFixed4 pp.arcSectionLength),
      Seg.cubicRel (toFixed4 pp.d) (toFixed4 pp.c) (toFixed4 pp.d)
        (toFixed4 (pp.b + pp.c)) (toFixed4 pp.d)
        (toFixed4 (pp.a + pp.b + pp.c))]
  else [Seg.lineRel (toFixed4 pp.p) 0]

/-- Source: `traceBottomRight`. -/
noncomputable def traceBottomRight (pp : BezierPatch) : List Seg :=
  if pp.cornerRadius ≠ 0 then
    [Seg.cubicRel 0 (toFixed4 pp.a) 0 (toFixed4 (pp.a + pp.b))
        (toFixed4 (-pp.d)) (toFixed4 (pp.a + pp.b + pp.c)),
      Seg.arcRel (toFixed4 pp.cornerRadius) (toFixed4 pp.cornerRadius) 0 0 1
        (-toFixed4 pp.arcSectionLength) (toFixed4 pp.arcSectionLength),
      Seg.cubicRel (toFixed4 (-pp.c)) (toFixed4 pp.d)
        (toFixed4 (-(pp.b + pp.c))) (toFixed4 pp.d)
        (toFixed4 (-(pp.a + pp.b + pp.c))) (toFixed4 pp.d)]
  else [Seg.lineRel 0 (toFixed4 pp.p)]

/-- Source: `traceBottomLeft`. -/
noncomputable def traceBottomLeft (pp : BezierPatch) : List Seg :=
  if pp.cornerRadius ≠ 0 then
    [Seg.cubicRel (toFixed4 (-pp.a)) 0 (toFixed4 (-(pp.a + pp.b))) 0
        (toFixed4 (-(pp.a + pp.b + pp.c))) (toFixed4 (-pp.d)),
      Seg.arcRel (toFixed4 pp.cornerRadius) (toFixed4 pp.cornerRadius) 0 0 1
        (-toFixed4 pp.arcSectionLength) (-toFixed4 pp.arcSectionLength),
      Seg.cubicRel (toFixed4 (-pp.d)) (toFixed4 (-pp.c)) (toFixed4 (-pp.d))
        (toFixed4 (-(pp.b + pp.c))) (toFixed4 (-pp.d))
        (toFixed4 (-(pp.a + pp.b + pp.c)))]
  else [Seg.lineRel (toFixed4 (-pp.p)) 0]

/-- Source: `traceTopLeft`. -/
noncomputable def traceTopLeft (pp : BezierPatch) : List Seg :=
  if pp.cornerRadius ≠ 0 then
    [Seg.cubicRel 0 (toFixed4 (-pp.a)) 0 (toFixed4 (-(pp.a + pp.b)))
        (toFixed4 pp.d) (toFixed4 (-(pp.a + pp.b + pp.c))),
      Seg.arcRel (toFixed4 pp.cornerRadius) (toFixed4 pp.cornerRadius) 0 0 1
        (toFixed4 pp.arcSectionLength) (-toFixed4 pp.arcSectionLength),
      Seg.cubicRel (toFixed4 pp.c) (toFixed4 (-pp.d))
        (toFixed4 (pp.b + pp.c)) (toFixed4 (-pp.d))
        (toFixed4 (pp.a + pp.b + pp.c)) (toFixed4 (-pp.d))]
  else [Seg.lineRel 0 (toFixed4 (-pp.p))]

/-- Source: `joinCornerProfiles`.  The `M`/`L` glue values are interpolated
with no rounding. -/
noncomputable def joinCornerProfiles (width height : ℝ)
    (topLeftPathParams topRightPathParams bottomLeftPathParams
      bottomRightPathParams : BezierPatch) : List Seg :=
  [Seg.moveTo (width - topRightPathParams.p) 0] ++
    traceTopRight topRightPathParams ++
    [Seg.lineTo width (height - bottomRightPathParams.p)] ++
    traceBottomRight bottomRightPathParams ++
    [Seg.lineTo bottomLeftPathParams.p height] ++
    traceBottomLeft bottomLeftPathParams ++
    [Seg.lineTo 0 topLeftPathParams.p] ++
    traceTopLeft topLeftPathParams ++
    [Seg.closePath]

/-- Source: `SquirclePathInput` (absent per-corner radii default to
`cornerRadius`, itself defaulting to 0 at the call boundary). -/
structure SquirclePathInput where
  cornerRadius : ℝ
  topLeftCornerRadius : Option ℝ
  topRightCornerRadius : Option ℝ
  bottomRightCornerRadius : Option ℝ
  bottomLeftCornerRadius : Option ℝ
  cornerSmoothing : ℝ
  width : ℝ
  height : ℝ
  preserveSmoothing : Bool

/-- Source: `buildSquirclePath` (the path cache consulted first is
semantically transparent — a hit returns the value previously computed by
this same function for the same key — and is therefore omitted here; its
eviction mechanics are embedded separately as `storeCachedPath`). -/
noncomputable def buildSquirclePath (input : SquirclePathInput) : List Seg :=
  let topLeftCornerRadius := input.topLeftCornerRadius.getD input.cornerRadius
  let topRightCornerRadius :=
    input.topRightCornerRadius.getD input.cornerRadius
  let bottomLeftCornerRadius :=
    input.bottomLeftCornerRadius.getD input.cornerRadius
  let bottomRightCornerRadius :=
    input.bottomRightCornerRadius.getD input.cornerRadius
  if topLeftCornerRadius = topRightCornerRadius ∧
      topRightCornerRadius = bottomRightCornerRadius ∧
      bottomRightCornerRadius = bottomLeftCornerRadius ∧
      bottomLeftCornerRadius = topLeftCornerRadius then
    if topLeftCornerRadius = 0 then
      [Seg.moveTo input.width 0, Seg.lineTo input.width input.height,
        Seg.lineTo 0 input.height, Seg.lineTo 0 0, Seg.closePath]
    else
      let budget := min input.width input.height / 2
      let radius := min topLeftCornerRadius budget
      let pathParams := computeCornerProfile radius input.cornerSmoothing
        input.preserveSmoothing budget
      joinCornerProfiles input.width input.height pathParams pathParams
        pathParams pathParams
  else
    let corners := normalizeCorners topLeftCornerRadius topRightCornerRadius
      bottomRightCornerRadius bottomLeftCornerRadius input.width input.height
    joinCornerProfiles input.width input.height
      (computeCornerProfile (corners.radiusMap .topLeft)
        input.cornerSmoothing input.preserveSmoothing
        (corners.budgetMap .topLeft))
      (computeCornerProfile (corners.radiusMap .topRight)
        input.cornerSmoothing input.preserveSmoothing
        (corners.budgetMap .topRight))
      (computeCornerProfile (corners.radiusMap .bottomLeft)
        input.cornerSmoothing input.preserveSmoothing
        (corners.budgetMap .bottomLeft))
      (computeCornerProfile (corners.radiusMap .bottomRight)
        input.cornerSmoothing input.preserveSmoothing
        (corners.budgetMap .bottomRight))

/-! ## Claim C6 -/

/-- A segment that draws no curve: a move, a straight line, or a close. -/
def segStraight : Seg → Prop
  | .moveTo _ _ => True
  | .lineTo _ _ => True
  | .lineRel _ _ => True
  | .closePath => True
  | .cubicRel _ _ _ _ _ _ => False
  | .arcRel _ _ _ _ _ _ _ => False

/-- C6: when the four (defaulted) requested radii are all equal, the budget
solver is skipped: the shared budget is `min(width, height)/2`, the effective
radius is `min(radius, budget)` (hence at most the budget), and all four
corners share one profile computed from them; in the special case of a common
radius of 0 the output is exactly the rectangle path `M w 0, L w h, L 0 h,
L 0 0, Z` — straight segments and a close only, no cubic or arc commands —
covering `[0, width] × [0, height]`. -/
theorem C6_equal_radii_branch (input : SquirclePathInput) (r : ℝ)
    (htl : input.topLeftCornerRadius.getD input.cornerRadius = r)
    (htr : input.topRightCornerRadius.getD input.cornerRadius = r)
    (hbr : input.bottomRightCornerRadius.getD input.cornerRadius = r)
    (hbl : input.bottomLeftCornerRadius.getD input.cornerRadius = r) :
    (r = 0 → buildSquirclePath input =
      [Seg.moveTo input.width 0, Seg.lineTo input.width input.height,
        Seg.lineTo 0 input.height, Seg.lineTo 0 0, Seg.closePath] ∧
      ∀ sgm ∈ buildSquirclePath input, segStraight sgm) ∧
    (r ≠ 0 → buildSquirclePath input =
      joinCornerProfiles input.width input.height
        (computeCornerProfile (min r (min input.width input.height / 2))
          input.cornerSmoothing input.preserveSmoothing
          (min input.width input.height / 2))
        (computeCornerProfile (min r (min input.width input.height / 2))
          input.cornerSmoothing input.preserveSmoothing
          (min input.width input.height / 2))
        (computeCornerProfile (min r (min input.width input.height / 2))
          input.cornerSmoothing input.preserveSmoothing
          (min input.width input.height / 2))
        (computeCornerProfile (min r (min input.width input.height / 2))
          input.cornerSmoothing input.preserveSmoothing
          (min input.width input.height / 2))) ∧
    min r (min input.width input.height / 2) ≤
      min input.width input.height / 2 := by
  have hpath : buildSquirclePath input =
      if r = 0 then
        [Seg.moveTo input.width 0, Seg.lineTo input.width input.height,
          Seg.lineTo 0 input.height, Seg.lineTo 0 0, Seg.closePath]
      else
        joinCornerProfiles input.width input.height
          (computeCornerProfile (min r (min input.width input.height / 2))
            input.cornerSmoothing input.preserveSmoothing
            (min input.width input.height / 2))
          (computeCornerProfile (min r (min input.width input.height / 2))
            input.cornerSmoothing input.preserveSmoothing
            (min input.width input.height / 2))
          (computeCornerProfile (min r (min input.width input.height / 2))
            input.cornerSmoothing input.preserveSmoothing
            (min input.width input.height / 2))
          (computeCornerProfile (min r (min input.width input.height / 2))
            input.cornerSmoothing input.preserveSmoothing
            (min input.width input.height / 2)) := by
    simp only [buildSquirclePath, htl, htr, hbr, hbl]
    simp
  refine ⟨?_, ?_, min_le_right _ _⟩
  · intro h0
    rw [hpath, if_pos h0]
    refine ⟨rfl, ?_⟩
    intro sgm hsgm
    fin_cases hsgm <;> trivial
  · intro hne
    rw [hpath, if_neg hne]

theorem C6_equal_radii_branch_witness :
    buildSquirclePath
        ⟨0, none, none, none, none, 0, 2, 3, false⟩ =
      [Seg.moveTo 2 0, Seg.lineTo 2 3, Seg.lineTo 0 3, Seg.lineTo 0 0,
        Seg.closePath] :=
  ((C6_equal_radii_branch ⟨0, none, none, none, none, 0, 2, 3, false⟩ 0
      rfl rfl rfl rfl).1 rfl).1

/-! ## Claim C5 -/

lemma pathNumerals_append (l1 l2 : List Seg) :
    pathNumerals (l1 ++ l2) = pathNumerals l1 ++ pathNumerals l2 := by
  simp [pathNumerals]

lemma traceTopRight_numerals_rounded (pp : BezierPatch) :
    ∀ x ∈ pathNumerals (traceTopRight pp), toFixed4 x = x := by
  rw [traceTopRight]
  split_ifs with h <;>
    simp [pathNumerals, segNumerals, toFixed4_idem, toFixed4_zero,
      toFixed4_one, toFixed4_neg_fix]

lemma traceBottomRight_numerals_rounded (pp : BezierPatch) :
    ∀ x ∈ pathNumerals (traceBottomRight pp), toFixed4 x = x := by
  rw [traceBottomRight]
  split_ifs with h <;>
    simp [pathNumerals, segNumerals, toFixed4_idem, toFixed4_zero,
      toFixed4_one, toFixed4_neg_fix]

lemma traceBottomLeft_numerals_rounded (pp : BezierPatch) :
    ∀ x ∈ pathNumerals (traceBottomLeft pp), toFixed4 x = x := by
  rw [traceBottomLeft]
  split_ifs with h <;>
    simp [pathNumerals, segNumerals, toFixed4_idem, toFixed4_zero,
      toFixed4_one, toFixed4_neg_fix]

lemma traceTopLeft_numerals_rounded (pp : BezierPatch) :
    ∀ x ∈ pathNumerals (traceTopLeft pp), toFixed4 x = x := by
  rw [traceTopLeft]
  split_ifs with h <;>
    simp [pathNumerals, segNumerals, toFixed4_idem, toFixed4_zero,
      toFixed4_one, toFixed4_neg_fix]

lemma mem_pathNumerals_join_head (width height : ℝ)
    (tl tr bl br : BezierPatch) :
    (width - tr.p) ∈ pathNumerals (joinCornerProfiles width height tl tr bl br) := by
  simp [joinCornerProfiles, pathNumerals, segNumerals]

/-- C5 (amended): the assembled path is the single closed outline starting at
`(width − topRight.p, 0)` and proceeding clockwise — top edge, top-right
trace, right edge, bottom-right trace, bottom edge, bottom-left trace, left
edge, top-left trace, close; each nonzero-radius corner trace is a cubic
Bezier, then a circular arc of the corner's (rounded) radius with
displacement `(±arcChord, ±arcChord)`, then a mirrored cubic Bezier; a
zero-radius corner contributes a single relative straight segment of length
`p`; and every numeric literal *interpolated inside a corner trace* is
rounded to four decimal places — the amendment: the `M`/`L` junction
coordinates between traces are emitted unrounded (see
`C5_rounding_counterexample`), so the original claim's "every emitted numeric
literal is rounded" does not hold for them. -/
theorem C5_path_assembly_amended (width height : ℝ)
    (tl tr bl br : BezierPatch) :
    joinCornerProfiles width height tl tr bl br =
      [Seg.moveTo (width - tr.p) 0] ++ traceTopRight tr ++
        [Seg.lineTo width (height - br.p)] ++ traceBottomRight br ++
        [Seg.lineTo bl.p height] ++ traceBottomLeft bl ++
        [Seg.lineTo 0 tl.p] ++ traceTopLeft tl ++ [Seg.closePath] ∧
    (tr.cornerRadius ≠ 0 → traceTopRight tr =
      [Seg.cubicRel (toFixed4 tr.a) 0 (toFixed4 (tr.a + tr.b)) 0
          (toFixed4 (tr.a + tr.b + tr.c)) (toFixed4 tr.d),
        Seg.arcRel (toFixed4 tr.cornerRadius) (toFixed4 tr.cornerRadius) 0 0 1
          (toFixed4 tr.arcSectionLength) (toFixed4 tr.arcSectionLength),
        Seg.cubicRel (toFixed4 tr.d) (toFixed4 tr.c) (toFixed4 tr.d)
          (toFixed4 (tr.b + tr.c)) (toFixed4 tr.d)
          (toFixed4 (tr.a + tr.b + tr.c))]) ∧
    (tr.cornerRadius = 0 → traceTopRight tr =
      [Seg.lineRel (toFixed4 tr.p) 0]) ∧
    (br.cornerRadius ≠ 0 → traceBottomRight br =
      [Seg.cubicRel 0 (toFixed4 br.a) 0 (toFixed4 (br.a + br.b))
          (toFixed4 (-br.d)) (toFixed4 (br.a + br.b + br.c)),
        Seg.arcRel (toFixed4 br.cornerRadius) (toFixed4 br.cornerRadius) 0 0 1
          (-toFixed4 br.arcSectionLength) (toFixed4 br.arcSectionLength),
        Seg.cubicRel (toFixed4 (-br.c)) (toFixed4 br.d)
          (toFixed4 (-(br.b + br.c))) (toFixed4 br.d)
          (toFixed4 (-(br.a + br.b + br.c))) (toFixed4 br.d)]) ∧
    (br.cornerRadius = 0 → traceBottomRight br =
      [Seg.lineRel 0 (toFixed4 br.p)]) ∧
    (bl.cornerRadius ≠ 0 → traceBottomLeft bl =
      [Seg.cubicRel (toFixed4 (-bl.a)) 0 (toFixed4 (-(bl.a + bl.b))) 0
          (toFixed4 (-(bl.a + bl.b + bl.c))) (toFixed4 (-bl.d)),
        Seg.arcRel (toFixed4 bl.cornerRadius) (toFixed4 bl.cornerRadius) 0 0 1
          (-toFixed4 bl.arcSectionLength) (-toFixed4 bl.arcSectionLength),
        Seg.cubicRel (toFixed4 (-bl.d)) (toFixed4 (-bl.c)) (toFixed4 (-bl.d))
          (toFixed4 (-(bl.b + bl.c))) (toFixed4 (-bl.d))
          (toFixed4 (-(bl.a + bl.b + bl.c)))]) ∧
    (bl.cornerRadius = 0 → traceBottomLeft bl =
      [Seg.lineRel (toFixed4 (-bl.p)) 0]) ∧
    (tl.cornerRadius ≠ 0 → traceTopLeft tl =
      [Seg.cubicRel 0 (toFixed4 (-tl.a)) 0 (toFixed4 (-(tl.a + tl.b)))
          (toFixed4 tl.d) (toFixed4 (-(tl.a + tl.b + tl.c))),
        Seg.arcRel (toFixed4 tl.cornerRadius) (toFixed4 tl.cornerRadius) 0 0 1
          (toFixed4 tl.arcSectionLength) (-toFixed4 tl.arcSectionLength),
        Seg.cubicRel (toFixed4 tl.c) (toFixed4 (-tl.d))
          (toFixed4 (tl.b + tl.c)) (toFixed4 (-tl.d))
          (toFixed4 (tl.a + tl.b + tl.c)) (toFixed4 (-tl.d))]) ∧
    (tl.cornerRadius = 0 → traceTopLeft tl =
      [Seg.lineRel 0 (toFixed4 (-tl.p))]) ∧
    (∀ x ∈ pathNumerals (traceTopRight tr ++ traceBottomRight br ++
        traceBottomLeft bl ++ traceTopLeft tl), toFixed4 x = x) := by
  refine ⟨rfl, ?_, ?_, ?_, ?_, ?_, ?_, ?_, ?_, ?_⟩
  · intro h; rw [traceTopRight, if_pos h]
  · intro h; rw [traceTopRight, if_neg (not_not_intro h)]
  · intro h; rw [traceBottomRight, if_pos h]
  · intro h; rw [traceBottomRight, if_neg (not_not_intro h)]
  · intro h; rw [traceBottomLeft, if_pos h]
  · intro h; rw [traceBottomLeft, if_neg (not_not_intro h)]
  · intro h; rw [traceTopLeft, if_pos h]
  · intro h; rw [traceTopLeft, if_neg (not_not_intro h)]
  · intro x hx
    simp only [pathNumerals_append, List.mem_append] at hx
    rcases hx with ((hx | hx) | hx) | hx
    · exact traceTopRight_numerals_rounded tr x hx
    · exact traceBottomRight_numerals_rounded br x hx
    · exact traceBottomLeft_numerals_rounded bl x hx
    · exact traceTopLeft_numerals_rounded tl x hx

theorem C5_path_assembly_amended_witness :
    traceTopRight ⟨1, 1, 1, 1, 1, 0, 1⟩ = [Seg.lineRel (toFixed4 1) 0] :=
  (C5_path_assembly_amended 1 1 ⟨1, 1, 1, 1, 1, 0, 1⟩ ⟨1, 1, 1, 1, 1, 0, 1⟩
    ⟨1, 1, 1, 1, 1, 0, 1⟩ ⟨1, 1, 1, 1, 1, 0, 1⟩).2.2.1 rfl

/-- C5 (counterexample): the claim's final clause — "every emitted numeric
literal is rounded to a fixed decimal precision" — is false.  For the input
`width = 1/3, height = 1`, radii `(topLeft, topRight, bottomRight,
bottomLeft) = (10, 0, 0, 0)`, smoothing 0: the path starts with
`M ${width − topRight.p} 0`, interpolated *without* `toFixed`, and
`width − topRight.p = 1/3` is not a four-decimal value: no rounded literal
can equal `1/3`. -/
theorem C5_rounding_counterexample :
    ¬ (∀ x ∈ pathNumerals (buildSquirclePath
        ⟨0, some 10, some 0, some 0, some 0, 0, 1 / 3, 1, false⟩),
      toFixed4 x = x) := by
  intro hall
  have hw : (0 : ℝ) < 1 / 3 := by norm_num
  have hh : (0 : ℝ) < 1 := by norm_num
  have hbuild : buildSquirclePath
      ⟨0, some 10, some 0, some 0, some 0, 0, 1 / 3, 1, false⟩ =
      joinCornerProfiles (1 / 3) 1
        (computeCornerProfile
          ((normalizeCorners 10 0 0 0 (1 / 3) 1).radiusMap .topLeft) 0 false
          ((normalizeCorners 10 0 0 0 (1 / 3) 1).budgetMap .topLeft))
        (computeCornerProfile
          ((normalizeCorners 10 0 0 0 (1 / 3) 1).radiusMap .topRight) 0 false
          ((normalizeCorners 10 0 0 0 (1 / 3) 1).budgetMap .topRight))
        (computeCornerProfile
          ((normalizeCorners 10 0 0 0 (1 / 3) 1).radiusMap .bottomLeft) 0 false
          ((normalizeCorners 10 0 0 0 (1 / 3) 1).budgetMap .bottomLeft))
        (computeCornerProfile
          ((normalizeCorners 10 0 0 0 (1 / 3) 1).radiusMap .bottomRight) 0 false
          ((normalizeCorners 10 0 0 0 (1 / 3) 1).budgetMap .bottomRight)) := by
    simp only [buildSquirclePath, Option.getD_some]
    rw [if_neg (by norm_num)]
  have hρ : (normalizeCorners 10 0 0 0 (1 / 3) 1).radiusMap .topRight = 0 :=
    normalizeCorners_radius_zero hw hh (by norm_num) (by norm_num)
      (by norm_num) (by norm_num) .topRight rfl
  have hβ : 0 ≤ (normalizeCorners 10 0 0 0 (1 / 3) 1).budgetMap .topRight :=
    (normalizeCorners_inv hw hh (by norm_num) (by norm_num) (by norm_num)
      (by norm_num)).2 .topRight
  have hp : (computeCornerProfile
      ((normalizeCorners 10 0 0 0 (1 / 3) 1).radiusMap .topRight) 0 false
      ((normalizeCorners 10 0 0 0 (1 / 3) 1).budgetMap .topRight)).p = 0 := by
    rw [hρ]
    exact (computeCornerProfile_zero_radius 0 _ hβ).1
  have hmem : (1 / 3 : ℝ) ∈ pathNumerals (buildSquirclePath
      ⟨0, some 10, some 0, some 0, some 0, 0, 1 / 3, 1, false⟩) := by
    rw [hbuild]
    have h0 := mem_pathNumerals_join_head (1 / 3) 1
      (computeCornerProfile
        ((normalizeCorners 10 0 0 0 (1 / 3) 1).radiusMap .topLeft) 0 false
        ((normalizeCorners 10 0 0 0 (1 / 3) 1).budgetMap .topLeft))
      (computeCornerProfile
        ((normalizeCorners 10 0 0 0 (1 / 3) 1).radiusMap .topRight) 0 false
        ((normalizeCorners 10 0 0 0 (1 / 3) 1).budgetMap .topRight))
      (computeCornerProfile
        ((normalizeCorners 10 0 0 0 (1 / 3) 1).radiusMap .bottomLeft) 0 false
        ((normalizeCorners 10 0 0 0 (1 / 3) 1).budgetMap .bottomLeft))
      (computeCornerProfile
        ((normalizeCorners 10 0 0 0 (1 / 3) 1).radiusMap .bottomRight) 0 false
        ((normalizeCorners 10 0 0 0 (1 / 3) 1).budgetMap .bottomRight))
    rw [hp, sub_zero] at h0
    exact h0
  have h13 : toFixed4 (1 / 3 : ℝ) = 1 / 3 := hall (1 / 3) hmem
  have h1 : ((round ((1 / 3 : ℝ) * 10000) : ℤ) : ℝ) / 10000 = 1 / 3 := h13
  have h2 : ((round ((1 / 3 : ℝ) * 10000) : ℤ) : ℝ) * 3 = 10000 := by
    field_simp at h1
    linarith
  have h3 : (round ((1 / 3 : ℝ) * 10000)) * 3 = 10000 := by exact_mod_cast h2
  omega

/-! ## The stroke/inset calculator (source: the `useMemo` body of
`SquircleBackdrop` and `shrinkRadius`) -/

/-- The component parameters after the destructuring defaults
(`baseRadius = 0`, `borderWidth = 0`) are applied; the four per-corner radii
keep their optionality. -/
structure SquircleParams where
  baseRadius : ℝ
  topLeftRadius : Option ℝ
  topRightRadius : Option ℝ
  bottomRightRadius : Option ℝ
  bottomLeftRadius : Option ℝ
  smoothFactor : ℝ
  borderWidth : ℝ

/-- Source: `shrinkRadius` — a present radius shrinks by the inset amount,
floored at 0; an absent radius stays absent. -/
noncomputable def shrinkRadius (radius : Option ℝ) (insetAmount : ℝ) :
    Option ℝ :=
  match radius with
  | some r => some (max 0 (r - insetAmount))
  | none => none

structure BackdropResult where
  path : Option (List Seg)
  insetAmount : ℝ
  renderedStrokeWidth : ℝ

/-- The clamped stroke width exactly as `SquircleBackdrop` computes it:
`min(max(0, borderWidth), m)` where `m` is the least of the *positive* values
among `[baseRadius, topLeftRadius, topRightRadius, bottomLeftRadius,
bottomRightRadius]` when at least one is positive, else `max(0, borderWidth)`
itself. -/
noncomputable def clampedStrokeWidth (params : SquircleParams) : ℝ :=
  let normalizedStrokeWidth := max 0 params.borderWidth
  let cornerRadii := ([some params.baseRadius, params.topLeftRadius,
    params.topRightRadius, params.bottomLeftRadius,
    params.bottomRightRadius].filterMap id).filter (fun v => decide (0 < v))
  let maxStrokeWidth := if cornerRadii ≠ [] then minList cornerRadii
    else normalizedStrokeWidth
  min normalizedStrokeWidth maxStrokeWidth

/-- Source: the `useMemo` body of `SquircleBackdrop`: no geometry while the
layout is unmeasured, the plain path for zero stroke, and otherwise the inset
pipeline rerun on the shrunken shape. -/
noncomputable def squircleBackdrop (layoutWidth layoutHeight : ℝ)
    (params : SquircleParams) : BackdropResult :=
  if layoutWidth = 0 ∨ layoutHeight = 0 then ⟨none, 0, 0⟩
  else
    let normalizedStrokeWidth := max 0 params.borderWidth
    let basePath := buildSquirclePath
      ⟨params.baseRadius, params.topLeftRadius, params.topRightRadius,
        params.bottomRightRadius, params.bottomLeftRadius,
        params.smoothFactor, layoutWidth, layoutHeight, false⟩
    if normalizedStrokeWidth = 0 then ⟨some basePath, 0, 0⟩
    else
      if clampedStrokeWidth params ≤ 0 then ⟨some basePath, 0, 0⟩
      else
        let inset := clampedStrokeWidth params / 2
        let insetPath := buildSquirclePath
          ⟨max 0 (params.baseRadius - inset),
            shrinkRadius params.topLeftRadius inset,
            shrinkRadius params.topRightRadius inset,
            shrinkRadius params.bottomRightRadius inset,
            shrinkRadius params.bottomLeftRadius inset,
            params.smoothFactor,
            layoutWidth - clampedStrokeWidth params,
            layoutHeight - clampedStrokeWidth params, false⟩
        ⟨some insetPath, inset, clampedStrokeWidth params⟩

/-! ## Claim C7 -/

/-- Modelled from the spec: "clamp the requested stroke width to the smallest
positive corner radius currently in effect" (§4.6), reading "currently in
effect" as the per-corner *effective* radii after defaulting (the explicit
radius where present, else the base radius).  The source instead takes the
minimum over the raw parameter list — which includes the base radius even
when every corner overrides it — so this literal reading fails; see
`C7_stroke_clamp_counterexample`. -/
noncomputable def specEffectiveClampedStrokeWidth (params : SquircleParams) :
    ℝ :=
  let effective := [params.topLeftRadius.getD params.baseRadius,
    params.topRightRadius.getD params.baseRadius,
    params.bottomRightRadius.getD params.baseRadius,
    params.bottomLeftRadius.getD params.baseRadius].filter
      (fun v => decide (0 < v))
  min (max 0 params.borderWidth) (minList effective)

/-- Concrete evaluation of the source's clamp at the counterexample input:
`min(max(0, 5), min [1, 10, 10, 10, 10]) = 1`. -/
lemma clampedStrokeWidth_example :
    clampedStrokeWidth ⟨1, some 10, some 10, some 10, some 10, 0, 5⟩ = 1 := by
  simp only [clampedStrokeWidth, List.filterMap, minList]
  norm_num [List.filter, min_def, max_def]
  rw [if_neg (List.cons_ne_nil _ _)]
  norm_num

/-- C7 (counterexample): with `baseRadius = 1` overridden by explicit radii
of 10 on all four corners and a requested stroke width of 5, the smallest
positive corner radius *in effect* is 10, so the claim says the stroke is
clamped to `min(5, 10) = 5`; the source includes the overridden base radius
in the minimum and renders a stroke of `min(5, 1) = 1`. -/
theorem C7_stroke_clamp_counterexample :
    (squircleBackdrop 100 100
        ⟨1, some 10, some 10, some 10, some 10, 0, 5⟩).renderedStrokeWidth
        = 1 ∧
    specEffectiveClampedStrokeWidth
        ⟨1, some 10, some 10, some 10, some 10, 0, 5⟩ = 5 := by
  have hclamp := clampedStrokeWidth_example
  constructor
  · simp only [squircleBackdrop, hclamp]
    norm_num [max_def]
  · simp only [specEffectiveClampedStrokeWidth, minList]
    norm_num [List.filter, min_def, max_def]

/-- C7 (amended): for a request with positive stroke width and nonzero
measured width and height, the stroke width is clamped to the smallest
positive value among the *base radius and the four per-corner radii* (the
amendment: the source includes the base radius in this minimum even when all
four corners override it, rather than the radii "currently in effect"); if
the clamped width resolves to ≤ 0 the un-inset path is returned with zero
stroke rendering and zero inset; otherwise width and height shrink by the
clamped width, every present corner radius shrinks by half of it (floored at
0), the same pipeline reruns on the shrunken shape, and the reported inset
offset is half the clamped width. -/
theorem C7_stroke_inset_amended (layoutWidth layoutHeight : ℝ)
    (params : SquircleParams) (hbw : 0 < params.borderWidth)
    (hw : ¬layoutWidth = 0) (hh : ¬layoutHeight = 0) :
    (clampedStrokeWidth params ≤ 0 →
      squircleBackdrop layoutWidth layoutHeight params =
        ⟨some (buildSquirclePath
          ⟨params.baseRadius, params.topLeftRadius, params.topRightRadius,
            params.bottomRightRadius, params.bottomLeftRadius,
            params.smoothFactor, layoutWidth, layoutHeight, false⟩), 0, 0⟩) ∧
    (0 < clampedStrokeWidth params →
      squircleBackdrop layoutWidth layoutHeight params =
        ⟨some (buildSquirclePath
          ⟨max 0 (params.baseRadius - clampedStrokeWidth params / 2),
            shrinkRadius params.topLeftRadius (clampedStrokeWidth params / 2),
            shrinkRadius params.topRightRadius (clampedStrokeWidth params / 2),
            shrinkRadius params.bottomRightRadius
              (clampedStrokeWidth params / 2),
            shrinkRadius params.bottomLeftRadius
              (clampedStrokeWidth params / 2),
            params.smoothFactor,
            layoutWidth - clampedStrokeWidth params,
            layoutHeight - clampedStrokeWidth params, false⟩),
          clampedStrokeWidth params / 2, clampedStrokeWidth params⟩) := by
  have hne : ¬(layoutWidth = 0 ∨ layoutHeight = 0) := by
    simp [hw, hh]
  have hnz : ¬(max 0 params.borderWidth = 0) :=
    ne_of_gt (lt_max_of_lt_right hbw)
  constructor
  · intro hcl
    rw [squircleBackdrop, if_neg hne]
    simp only [if_neg hnz]
    rw [if_pos hcl]
  · intro hcl
    rw [squircleBackdrop, if_neg hne]
    simp only [if_neg hnz]
    rw [if_neg (not_le.mpr hcl)]

theorem C7_stroke_inset_amended_witness :
    squircleBackdrop 100 100 ⟨1, some 10, some 10, some 10, some 10, 0, 5⟩ =
        ⟨some (buildSquirclePath
          ⟨max 0 (1 - clampedStrokeWidth
              ⟨1, some 10, some 10, some 10, some 10, 0, 5⟩ / 2),
            shrinkRadius (some 10) (clampedStrokeWidth
              ⟨1, some 10, some 10, some 10, some 10, 0, 5⟩ / 2),
            shrinkRadius (some 10) (clampedStrokeWidth
              ⟨1, some 10, some 10, some 10, some 10, 0, 5⟩ / 2),
            shrinkRadius (some 10) (clampedStrokeWidth
              ⟨1, some 10, some 10, some 10, some 10, 0, 5⟩ / 2),
            shrinkRadius (some 10) (clampedStrokeWidth
              ⟨1, some 10, some 10, some 10, some 10, 0, 5⟩ / 2),
            0, 100 - clampedStrokeWidth
              ⟨1, some 10, some 10, some 10, some 10, 0, 5⟩,
            100 - clampedStrokeWidth
              ⟨1, some 10, some 10, some 10, some 10, 0, 5⟩, false⟩),
          clampedStrokeWidth ⟨1, some 10, some 10, some 10, some 10, 0, 5⟩ / 2,
          clampedStrokeWidth ⟨1, some 10, some 10, some 10, some 10, 0, 5⟩⟩ :=
  (C7_stroke_inset_amended 100 100
    ⟨1, some 10, some 10, some 10, some 10, 0, 5⟩ (by norm_num)
    (by norm_num) (by norm_num)).2
    (by rw [clampedStrokeWidth_example]; norm_num)

/-! ## Claim C8 — the ParamNormalizer -/

/-- Modelled from the spec: the raw options consumed by the ParamNormalizer
(§4.1).  `smoothFactor = none` models "absent or not representable as a
finite number". -/
structure RawSquircleOptions where
  baseRadius : Option ℝ
  topLeftRadius : Option ℝ
  topRightRadius : Option ℝ
  bottomRightRadius : Option ℝ
  bottomLeftRadius : Option ℝ
  smoothFactor : Option ℝ
  borderWidth : Option ℝ

structure NormalizedSquircleParams where
  baseRadius : ℝ
  topLeftRadius : ℝ
  topRightRadius : ℝ
  bottomRightRadius : ℝ
  bottomLeftRadius : ℝ
  smoothFactor : ℝ
  borderWidth : ℝ

/-- Modelled from the spec: `normalizeSquircleParams`, the ParamNormalizer of
§4.1, lives in `core/params`, which is not among the provided sources (only
its caller `ExpoSquircle.tsx` is).  Per §4.1/§7: it fails with a
ValidationError if and only if the smoothing factor is absent or not a finite
number; every per-corner radius defaults to the base radius (itself
defaulting to 0) and every malformed numeric input — negative radius,
negative border width — is clamped to 0, never rejected. -/
noncomputable def normalizeSquircleParams (raw : RawSquircleOptions) :
    Except String NormalizedSquircleParams :=
  match raw.smoothFactor with
  | none => .error "ValidationError: smoothFactor is required"
  | some s =>
    let base := raw.baseRadius.getD 0
    .ok ⟨max 0 base,
      max 0 (raw.topLeftRadius.getD base),
      max 0 (raw.topRightRadius.getD base),
      max 0 (raw.bottomRightRadius.getD base),
      max 0 (raw.bottomLeftRadius.getD base),
      s,
      max 0 (raw.borderWidth.getD 0)⟩

/-- C8: the normalizer fails if and only if the smoothing factor is absent or
not a finite number (modelled as `none`), and this is the only hard
validation failure: with any valid smoothing factor it succeeds, with every
radius and the border width clamped to a nonnegative value rather than
rejected. -/
theorem C8_validation_error_iff (raw : RawSquircleOptions) :
    ((∃ e, normalizeSquircleParams raw = .error e) ↔
      raw.smoothFactor = none) ∧
    (∀ s, raw.smoothFactor = some s →
      ∃ out, normalizeSquircleParams raw = .ok out ∧
        out.smoothFactor = s ∧ 0 ≤ out.baseRadius ∧
        0 ≤ out.topLeftRadius ∧ 0 ≤ out.topRightRadius ∧
        0 ≤ out.bottomRightRadius ∧ 0 ≤ out.bottomLeftRadius ∧
        0 ≤ out.borderWidth) := by
  constructor
  · constructor
    · intro ⟨e, he⟩
      cases hs : raw.smoothFactor with
      | none => rfl
      | some s =>
        rw [normalizeSquircleParams, hs] at he
        cases he
    · intro hs
      exact ⟨"ValidationError: smoothFactor is required", by
        rw [normalizeSquircleParams, hs]⟩
  · intro s hs
    refine ⟨_, by rw [normalizeSquircleParams, hs], rfl, le_max_left 0 _,
      le_max_left 0 _, le_max_left 0 _, le_max_left 0 _, le_max_left 0 _,
      le_max_left 0 _⟩

/-! ## The path cache (source: `PATH_CACHE_LIMIT`, `PATH_CACHE_MAP`,
`storeCachedPath`)

A JavaScript `Map` keeps its entries in insertion order: `set` on an existing
key updates the value in place, `delete` removes the entry, and
`keys().next()` yields the oldest-inserted key still present.  The map is
embedded as an insertion-ordered association list (oldest entry first); key
and value types are abstract (the source uses strings for both). -/

def PATH_CACHE_LIMIT : ℕ := 160

section PathCache

variable {κ ν : Type} [DecidableEq κ]

/-- `Map.prototype.has`. -/
def mapHas (m : List (κ × ν)) (key : κ) : Bool :=
  m.any (fun e => decide (e.1 = key))

/-- `Map.prototype.set`: update in place when the key is present, else append
in insertion order. -/
def mapSet (m : List (κ × ν)) (key : κ) (value : ν) : List (κ × ν) :=
  if mapHas m key then
    m.map (fun e => if e.1 = key then (key, value) else e)
  else m ++ [(key, value)]

/-- `Map.prototype.delete`. -/
def mapDelete (m : List (κ × ν)) (key : κ) : List (κ × ν) :=
  m.filter (fun e => decide (¬e.1 = key))

/-- `map.keys().next()`: the oldest-inserted key, when any. -/
def mapFirstKey (m : List (κ × ν)) : Option κ := m.head?.map Prod.fst

/-- Source: `storeCachedPath` — when at (or beyond) capacity and the key is
new, evict the single oldest entry, then insert. -/
def storeCachedPath (m : List (κ × ν)) (key : κ) (value : ν) :
    List (κ × ν) :=
  let m2 := if PATH_CACHE_LIMIT ≤ m.length ∧ mapHas m key = false then
      match mapFirstKey m with
      | some oldest => mapDelete m oldest
      | none => m
    else m
  mapSet m2 key value

/-- Well-formedness: a JS `Map` never holds two entries with the same key. -/
def mapWF (m : List (κ × ν)) : Prop := (m.map Prod.fst).Nodup

lemma mapHas_eq_true_iff (m : List (κ × ν)) (key : κ) :
    mapHas m key = true ↔ key ∈ m.map Prod.fst := by
  rw [mapHas, List.any_eq_true]
  constructor
  · intro ⟨e, he, hk⟩
    rw [decide_eq_true_eq] at hk
    exact hk ▸ List.mem_map_of_mem Prod.fst he
  · intro hk
    rcases List.mem_map.mp hk with ⟨e, he, hk2⟩
    exact ⟨e, he, by rw [decide_eq_true_eq]; exact hk2⟩

lemma mapHas_eq_false_iff (m : List (κ × ν)) (key : κ) :
    mapHas m key = false ↔ key ∉ m.map Prod.fst := by
  rw [← mapHas_eq_true_iff]
  exact ⟨fun h => by simp [h], fun h => by simpa using h⟩

/-- Inserting a fresh key into a full well-formed cache evicts exactly the
single oldest entry and appends the new one. -/
lemma storeCachedPath_at_capacity (m : List (κ × ν)) (key : κ) (value : ν)
    (hwf : mapWF m) (hlen : m.length = PATH_CACHE_LIMIT)
    (hnew : mapHas m key = false) :
    storeCachedPath m key value = m.tail ++ [(key, value)] := by
  cases m with
  | nil => simp [PATH_CACHE_LIMIT] at hlen
  | cons e t =>
    have he1 : e.1 ∉ t.map Prod.fst := (List.nodup_cons.mp hwf).1
    have hdel : mapDelete (e :: t) e.1 = t := by
      rw [mapDelete, List.filter_cons]
      have hpe : (decide (¬e.1 = e.1)) = false := by simp
      rw [hpe]
      simp only [Bool.false_eq_true, if_false]
      refine List.filter_eq_self.mpr ?_
      intro a ha
      simp only [decide_eq_true_eq]
      intro haeq
      exact he1 (haeq ▸ List.mem_map_of_mem Prod.fst ha)
    have hnot : mapHas t key = false := by
      rw [mapHas_eq_false_iff]
      rw [mapHas_eq_false_iff] at hnew
      intro hmem
      exact hnew (by simp [hmem])
    rw [storeCachedPath]
    rw [if_pos ⟨le_of_eq hlen.symm, hnew⟩]
    show mapSet (mapDelete (e :: t) e.1) key value =
      (e :: t).tail ++ [(key, value)]
    rw [hdel, mapSet, if_neg (by simp [hnot])]
    rfl

/-- Inserting an already-present key evicts nothing: the key sequence is
unchanged. -/
lemma storeCachedPath_hit_keys (m : List (κ × ν)) (key : κ) (value : ν)
    (hhit : mapHas m key = true) :
    (storeCachedPath m key value).map Prod.fst = m.map Prod.fst := by
  rw [storeCachedPath]
  rw [if_neg (by simp [hhit])]
  rw [mapSet, if_pos hhit, List.map_map]
  apply List.map_congr_left
  intro e _
  by_cases h : e.1 = key <;> simp [h, Function.comp]

/-- One store never grows the cache beyond `max (current size) capacity`. -/
lemma storeCachedPath_length_le (m : List (κ × ν)) (key : κ) (value : ν) :
    (storeCachedPath m key value).length ≤ max m.length PATH_CACHE_LIMIT := by
  rw [storeCachedPath]
  cases hhas : mapHas m key with
  | true =>
    rw [if_neg (by simp)]
    rw [mapSet, if_pos hhas, List.length_map]
    exact le_max_left _ _
  | false =>
    by_cases hlen : PATH_CACHE_LIMIT ≤ m.length
    · rw [if_pos ⟨hlen, rfl⟩]
      cases m with
      | nil => simp [PATH_CACHE_LIMIT] at hlen
      | cons e t =>
        show (mapSet (mapDelete (e :: t) e.1) key value).length ≤
          max (e :: t).length PATH_CACHE_LIMIT
        have hdel_le : (mapDelete (e :: t) e.1).length ≤ t.length := by
          rw [mapDelete, List.filter_cons]
          have hpe : (decide (¬e.1 = e.1)) = false := by simp
          rw [hpe]
          simp only [Bool.false_eq_true, if_false]
          exact List.length_filter_le _ t
        cases hset : mapHas (mapDelete (e :: t) e.1) key with
        | false =>
          rw [mapSet, if_neg (by simp [hset])]
          calc (mapDelete (e :: t) e.1 ++ [(key, value)]).length
              = (mapDelete (e :: t) e.1).length + 1 := by simp
            _ ≤ t.length + 1 := by omega
            _ = (e :: t).length := by simp
            _ ≤ max (e :: t).length PATH_CACHE_LIMIT := le_max_left _ _
        | true =>
          rw [mapSet, if_pos hset, List.length_map]
          calc (mapDelete (e :: t) e.1).length ≤ t.length := hdel_le
            _ ≤ (e :: t).length := by simp
            _ ≤ max (e :: t).length PATH_CACHE_LIMIT := le_max_left _ _
    · rw [if_neg (by intro h; exact hlen h.1)]
      rw [mapSet, if_neg (by simp [hhas])]
      calc (m ++ [(key, value)]).length = m.length + 1 := by simp
        _ ≤ PATH_CACHE_LIMIT := by omega
        _ ≤ max m.length PATH_CACHE_LIMIT := le_max_right _ _

/-- Folding stores from the empty cache keeps the size within capacity. -/
lemma foldl_store_length_le (ops : List (κ × ν)) :
    ∀ (m : List (κ × ν)), m.length ≤ PATH_CACHE_LIMIT →
      ((ops.foldl (fun acc e => storeCachedPath acc e.1 e.2) m).length ≤
        PATH_CACHE_LIMIT) := by
  induction ops with
  | nil => intro m hm; simpa using hm
  | cons e t ih =>
    intro m hm
    rw [List.foldl_cons]
    refine ih _ ?_
    have := storeCachedPath_length_le m e.1 e.2
    have hmax : max m.length PATH_CACHE_LIMIT = PATH_CACHE_LIMIT :=
      max_eq_right hm
    omega

/-- Storing a duplicate-free batch of fresh keys that fits within capacity
just appends them in order. -/
lemma foldl_store_fresh (value : ν) :
    ∀ (ks : List κ) (m : List (κ × ν)), mapWF m →
      (∀ k ∈ ks, mapHas m k = false) → ks.Nodup →
      m.length + ks.length ≤ PATH_CACHE_LIMIT →
      ks.foldl (fun acc k => storeCachedPath acc k value) m =
        m ++ ks.map (fun k => (k, value)) := by
  intro ks
  induction ks with
  | nil => intro m _ _ _ _; simp
  | cons k t ih =>
    intro m hwf hfresh hnd hlen
    rcases List.nodup_cons.mp hnd with ⟨hkt, htnd⟩
    have hk : mapHas m k = false := hfresh k (List.mem_cons_self k t)
    have hstep : storeCachedPath m k value = m ++ [(k, value)] := by
      have hlt : ¬PATH_CACHE_LIMIT ≤ m.length := by
        simp only [List.length_cons] at hlen
        omega
      have hcond : ¬(PATH_CACHE_LIMIT ≤ m.length ∧ mapHas m k = false) := by
        intro h
        exact hlt h.1
      rw [storeCachedPath, if_neg hcond, mapSet, if_neg (by simp [hk])]
    rw [List.foldl_cons, hstep]
    have hwf2 : mapWF (m ++ [(k, value)]) := by
      rw [mapWF, List.map_append]
      refine List.Nodup.append hwf (by simp) ?_
      intro a ha hb
      simp only [List.map_cons, List.map_nil, List.mem_singleton] at hb
      exact (mapHas_eq_false_iff m k).mp hk (hb ▸ ha)
    have hfresh2 : ∀ x ∈ t, mapHas (m ++ [(k, value)]) x = false := by
      intro x hx
      rw [mapHas_eq_false_iff, List.map_append]
      simp only [List.mem_append, List.map_cons, List.map_nil,
        List.mem_singleton]
      intro hmem
      rcases hmem with hmem | hmem
      · exact (mapHas_eq_false_iff m x).mp
          (hfresh x (List.mem_cons_of_mem k hx)) hmem
      · exact hkt (hmem ▸ hx)
    have hlen2 : (m ++ [(k, value)]).length + t.length ≤
        PATH_CACHE_LIMIT := by
      simp only [List.length_append, List.length_cons, List.length_nil]
        at hlen ⊢
      omega
    rw [ih (m ++ [(k, value)]) hwf2 hfresh2 htnd hlen2]
    simp

/-- Inserting `capacity + 1` distinct keys into the empty cache evicts
exactly the first-inserted key: the surviving keys are the tail of the
insertion sequence, in order. -/
lemma foldl_store_overflow (value : ν) (ks : List κ) (hnd : ks.Nodup)
    (hlen : ks.length = PATH_CACHE_LIMIT + 1) :
    ((ks.foldl (fun acc k => storeCachedPath acc k value) []).map
      Prod.fst) = ks.tail := by
  have hne : ks ≠ [] := by
    intro h
    rw [h] at hlen
    simp [PATH_CACHE_LIMIT] at hlen
  obtain ⟨init, last, hks⟩ : ∃ init last, ks = init ++ [last] :=
    ⟨ks.dropLast, ks.getLast hne, (List.dropLast_append_getLast hne).symm⟩
  subst hks
  have hinitlen : init.length = PATH_CACHE_LIMIT := by
    simp only [List.length_append, List.length_cons, List.length_nil] at hlen
    omega
  rcases List.nodup_append.mp hnd with ⟨hnd_init, _, hdisj⟩
  have hlast_notin : last ∉ init := fun hmem =>
    hdisj hmem (List.mem_singleton_self _)
  have hfill : init.foldl (fun acc k => storeCachedPath acc k value) [] =
      init.map (fun k => (k, value)) := by
    simpa using foldl_store_fresh value init [] (by simp [mapWF])
      (fun k _ => rfl) hnd_init (by simp [hinitlen])
  have hcomp : (Prod.fst ∘ fun k : κ => (k, value)) = id := rfl
  have hwf_full : mapWF (init.map (fun k => (k, value))) := by
    rw [mapWF, List.map_map, hcomp, List.map_id]
    exact hnd_init
  have hhas_last : mapHas (init.map (fun k => (k, value))) last = false := by
    rw [mapHas_eq_false_iff, List.map_map, hcomp, List.map_id]
    exact hlast_notin
  have hstore := storeCachedPath_at_capacity
    (init.map (fun k => (k, value))) last value hwf_full
    (by simpa using hinitlen) hhas_last
  rw [List.foldl_append, hfill, List.foldl_cons, List.foldl_nil, hstore]
  cases init with
  | nil => simp [PATH_CACHE_LIMIT] at hinitlen
  | cons k0 t0 =>
    simp [List.map_map, hcomp]

end PathCache

/-! ## Claim C9 -/

/-- C9: the path cache has capacity 160 with pure insertion-order FIFO
eviction: inserting a new key into a full well-formed cache evicts exactly
the single oldest-inserted entry still present and no other (the result is
the tail of the cache plus the new entry); inserting an already-present key
evicts nothing; the size never exceeds 160 for any sequence of stores from
the empty cache; and inserting 161 distinct keys into an initially empty
cache evicts exactly the first-inserted key. -/
theorem C9_path_cache_fifo {κ ν : Type} [DecidableEq κ] :
    (∀ (m : List (κ × ν)) (key : κ) (value : ν), mapWF m →
      m.length = PATH_CACHE_LIMIT → mapHas m key = false →
      storeCachedPath m key value = m.tail ++ [(key, value)]) ∧
    (∀ (m : List (κ × ν)) (key : κ) (value : ν), mapHas m key = true →
      (storeCachedPath m key value).map Prod.fst = m.map Prod.fst) ∧
    (∀ ops : List (κ × ν),
      ((ops.foldl (fun acc e => storeCachedPath acc e.1 e.2)
        ([] : List (κ × ν))).length ≤ PATH_CACHE_LIMIT)) ∧
    (∀ (ks : List κ) (value : ν), ks.Nodup →
      ks.length = PATH_CACHE_LIMIT + 1 →
      ((ks.foldl (fun acc k => storeCachedPath acc k value)
        ([] : List (κ × ν))).map Prod.fst) = ks.tail) ∧
    PATH_CACHE_LIMIT = 160 :=
  ⟨storeCachedPath_at_capacity, storeCachedPath_hit_keys,
    fun ops => foldl_store_length_le ops [] (by simp),
    fun ks value hnd hlen => foldl_store_overflow value ks hnd hlen, rfl⟩

theorem C9_path_cache_fifo_witness :
    storeCachedPath ((List.range 160).map (fun i => (i, 0))) 1000 0 =
      ((List.range 160).map (fun i => (i, (0 : ℕ)))).tail ++ [(1000, 0)] :=
  (C9_path_cache_fifo (κ := ℕ) (ν := ℕ)).1 _ 1000 0
    (by
      have hcomp : (Prod.fst ∘ fun i : ℕ => (i, (0 : ℕ))) = id := rfl
      rw [mapWF, List.map_map, hcomp, List.map_id]
      exact List.nodup_range 160)
    (by simp [PATH_CACHE_LIMIT])
    (by
      rw [mapHas_eq_false_iff, List.map_map]
      simp [Function.comp])

theorem C8_validation_error_iff_witness :
    ((∃ e, normalizeSquircleParams
        ⟨some (-5), none, none, none, none, some 1, some (-2)⟩ = .error e) ↔
      (⟨some (-5), none, none, none, none, some 1, some (-2)⟩ :
        RawSquircleOptions).smoothFactor = none) ∧
    (∀ s, (⟨some (-5), none, none, none, none, some 1, some (-2)⟩ :
        RawSquircleOptions).smoothFactor = some s →
      ∃ out, normalizeSquircleParams
          ⟨some (-5), none, none, none, none, some 1, some (-2)⟩ =
          .ok out ∧
        out.smoothFactor = s ∧ 0 ≤ out.baseRadius ∧
        0 ≤ out.topLeftRadius ∧ 0 ≤ out.topRightRadius ∧
        0 ≤ out.bottomRightRadius ∧ 0 ≤ out.bottomLeftRadius ∧
        0 ≤ out.borderWidth) :=
  C8_validation_error_iff ⟨some (-5), none, none, none, none, some 1,
    some (-2)⟩

end ExpoSquircle
